import Mathlib

set_option maxHeartbeats 1600000

/-!
Shallow embedding of the algorithmic core of the visulyn repository.

JavaScript numbers are modelled as exact rationals for the alias sampler
and as real numbers for the two annealing engines.  Every call of
Math.random is made explicit: a function receives either the individual
draws it needs or a stream (a function from position to value) which it
consumes from the front, returning the advanced stream.
-/

namespace Visulyn

/-! ## Alias method (src/src/pages/AliasMethod.tsx)

All arithmetic of the alias construction is +, -, *, / and comparisons,
so it is embedded over the rationals, which model the JavaScript floats
exactly on the inputs the claims quantify over. -/

/-- Embeds normalizeProbs: divide by the sum computed with reduce; if the
sum is exactly zero, return the uniform distribution. -/
def normalizeProbs (probs : List ℚ) : List ℚ :=
  let s := probs.foldl (fun acc val => acc + val) 0
  if s = 0 then probs.map (fun _ => 1 / (probs.length : ℚ))
  else probs.map (fun p => p / s)

/-- Embeds the two loops after the while loop of createAliasTables: every
index still in the large worklist and then every index still in the small
worklist receives probTable entry 1. -/
def aliasFinish (probTable : List ℚ) (small large : List ℕ) : List ℚ :=
  small.foldl (fun acc s => acc.set s 1)
    (large.foldl (fun acc l => acc.set l 1) probTable)

/-- Embeds the while loop of createAliasTables.  The worklists are JS
arrays used as stacks (push and pop at the end); they are modelled as
lists whose head is the top of the stack. -/
def aliasLoop : List ℚ → List ℚ → List ℕ → List ℕ → List ℕ → List ℚ × List ℕ
  | _, probTable, aliasTable, [], large =>
      (aliasFinish probTable [] large, aliasTable)
  | _, probTable, aliasTable, s :: small, [] =>
      (aliasFinish probTable (s :: small) [], aliasTable)
  | scaledProbs, probTable, aliasTable, s :: small, l :: large =>
      let probTable2 := probTable.set s (scaledProbs.getD s 0)
      let aliasTable2 := aliasTable.set s l
      let scaledProbs2 :=
        scaledProbs.set l (scaledProbs.getD l 0 - (1 - scaledProbs.getD s 0))
      if scaledProbs2.getD l 0 < 1 then
        aliasLoop scaledProbs2 probTable2 aliasTable2 (l :: small) large
      else
        aliasLoop scaledProbs2 probTable2 aliasTable2 small (l :: large)
  termination_by _ _ _ small large => small.length + large.length
  decreasing_by
    all_goals simp +arith [List.length]

/-- Embeds createAliasTables.  The initial split pushes indices 0..n-1 in
order onto the small or large stack; since stacks are modelled head-first,
the pushed-in-order JS array is the reversed filtered list. -/
def createAliasTables (probs : List ℚ) : List ℚ × List ℕ :=
  let n := probs.length
  let scaledProbs := probs.map (fun p => p * (n : ℚ))
  let probTable := List.replicate n (0 : ℚ)
  let aliasTable := List.replicate n (0 : ℕ)
  let small := ((List.range n).filter (fun i => decide (scaledProbs.getD i 0 < 1))).reverse
  let large := ((List.range n).filter (fun i => !decide (scaledProbs.getD i 0 < 1))).reverse
  aliasLoop scaledProbs probTable aliasTable small large

/-- The scaled probabilities of createAliasTables (its local variable
scaledProbs before the loop mutates it). -/
def scaledProbsOf (probs : List ℚ) : List ℚ :=
  probs.map (fun p => p * (probs.length : ℚ))

/-- The initial small worklist of createAliasTables, head = top. -/
def smallInit (probs : List ℚ) : List ℕ :=
  ((List.range probs.length).filter
    (fun i => decide ((scaledProbsOf probs).getD i 0 < 1))).reverse

/-- The initial large worklist of createAliasTables, head = top. -/
def largeInit (probs : List ℚ) : List ℕ :=
  ((List.range probs.length).filter
    (fun i => !decide ((scaledProbsOf probs).getD i 0 < 1))).reverse

/-- Embeds sample: each draw consumes two stream values, the uniform
bucket (floor of draw times n) and the coin flip compared against the
prob-table entry of the bucket. -/
def sample (probTable : List ℚ) (aliasTable : List ℕ) : ℕ → (ℕ → ℚ) → List ℕ
  | 0, _ => []
  | size + 1, g =>
      let bucket := (⌊g 0 * (probTable.length : ℚ)⌋).toNat
      let coinFlip := g 1
      let outcome := if coinFlip < probTable.getD bucket 0 then bucket
                     else aliasTable.getD bucket 0
      outcome :: sample probTable aliasTable size (fun k => g (k + 2))

/-! ## TSP annealing engine (src/src/utils/simulatedAnnealing.ts)

City coordinates, distances and temperatures are real numbers.  A call of
simulationStep makes at most three Math.random calls (two swap positions
and one acceptance draw, the last skipped by short-circuit evaluation when
the neighbor improves); the three potential draws are passed as explicit
arguments, which is observationally the same function of the entropy. -/

structure City where
  id : ℤ
  x : ℝ
  y : ℝ

structure SimulationState where
  cities : List City
  currentPath : List ℕ
  bestPath : List ℕ
  distances : List ℝ
  currentDistance : ℝ
  bestDistance : ℝ
  temperature : ℝ
  iteration : ℕ
  totalIterations : ℕ
  isRunning : Bool
  animationSpeed : ℝ

structure SimulationParams where
  initialTemperature : ℝ
  coolingRate : ℝ
  totalIterations : ℕ

/-- Embeds distance: Euclidean distance between two cities. -/
noncomputable def distance (city1 city2 : City) : ℝ :=
  Real.sqrt ((city1.x - city2.x) * (city1.x - city2.x)
    + (city1.y - city2.y) * (city1.y - city2.y))

/-- JS array indexing cities[i]; out-of-range access is never reached on
the index ranges the claims quantify over, so a default city stands in for
the JS undefined. -/
def cityAt (cities : List City) (i : ℕ) : City :=
  cities.getD i ⟨0, 0, 0⟩

/-- Embeds calculatePathDistance: distance from the fixed start city
(index 0) to the first path entry, plus consecutive distances along the
path, plus the distance from the last path entry back to the start. -/
noncomputable def calculatePathDistance (cities : List City) (path : List ℕ) : ℝ :=
  if cities.length < 2 ∨ path.length = 0 then 0
  else
    let d0 := distance (cityAt cities 0) (cityAt cities (path.getD 0 0))
    let mid := (List.range (path.length - 1)).foldl
      (fun acc i => acc + distance (cityAt cities (path.getD i 0))
        (cityAt cities (path.getD (i + 1) 0))) d0
    mid + distance (cityAt cities (path.getD (path.length - 1) 0)) (cityAt cities 0)

/-- Embeds getInitialState (the numCities argument is unused in the
source as well). -/
def getInitialState (_numCities : ℕ := 0) : SimulationState :=
  { cities := []
    currentPath := []
    bestPath := []
    distances := []
    currentDistance := 0
    bestDistance := 0
    temperature := 0
    iteration := 0
    totalIterations := 0
    isRunning := false
    animationSpeed := 1 }

/-- Math.floor(x * n) for a draw x, as used for random index selection. -/
noncomputable def randIdx (x : ℝ) (n : ℕ) : ℕ :=
  (⌊x * (n : ℝ)⌋).toNat

/-- The JS destructuring swap of two array cells, via List.set.  For the
in-range indices produced by draws in [0,1) this is exactly the JS swap. -/
def swapL (l : List ℕ) (i j : ℕ) : List ℕ :=
  (l.set i (l.getD j 0)).set j (l.getD i 0)

/-- Embeds simulationStep.  ri and rj are the two position draws, racc the
acceptance draw. -/
noncomputable def simulationStep (state : SimulationState) (params : SimulationParams)
    (ri rj racc : ℝ) : SimulationState :=
  if state.cities.length < 3 ∨ state.totalIterations ≤ state.iteration then
    { state with isRunning := false }
  else
    let numCities := state.cities.length - 1
    let i := randIdx ri numCities
    let j := randIdx rj numCities
    if i ≠ j then
      let newPath := swapL state.currentPath i j
      let currentDistance := calculatePathDistance state.cities state.currentPath
      let newDistance := calculatePathDistance state.cities newPath
      if newDistance < currentDistance ∨
          racc < Real.exp ((currentDistance - newDistance) / state.temperature) then
        let newBest : List ℕ × ℝ :=
          if state.bestPath.length = 0 ∨ newDistance < state.bestDistance then
            (newPath, newDistance)
          else (state.bestPath, state.bestDistance)
        { state with
            currentPath := newPath
            bestPath := newBest.1
            distances := state.distances ++ [newDistance]
            currentDistance := newDistance
            bestDistance := newBest.2
            temperature := state.temperature * params.coolingRate
            iteration := state.iteration + 1 }
      else
        { state with
            distances := state.distances ++
              [calculatePathDistance state.cities state.currentPath]
            temperature := state.temperature * params.coolingRate
            iteration := state.iteration + 1 }
    else
      { state with
          distances := state.distances ++
            [calculatePathDistance state.cities state.currentPath]
          temperature := state.temperature * params.coolingRate
          iteration := state.iteration + 1 }

/-- Embeds the Fisher-Yates loop of shuffleArray; the loop index of the
source is the matched value plus one, the stream position advances one
draw per swap. -/
noncomputable def shuffleGo (g : ℕ → ℝ) : ℕ → List ℕ → ℕ → List ℕ
  | _, a, 0 => a
  | pos, a, i + 1 => shuffleGo g (pos + 1) (swapL a (i + 1) (randIdx (g pos) (i + 2))) i

/-- Embeds shuffleArray driven by a draw stream. -/
noncomputable def shuffleArray (a : List ℕ) (g : ℕ → ℝ) : List ℕ :=
  shuffleGo g 0 a (a.length - 1)

/-- Embeds initializeSimulation. -/
noncomputable def initializeSimulation (cities : List City) (params : SimulationParams)
    (g : ℕ → ℝ) : SimulationState :=
  if cities.length < 3 then getInitialState
  else
    let pathIndices := shuffleArray (List.range' 1 (cities.length - 1)) g
    let initialDistance := calculatePathDistance cities pathIndices
    { cities := cities
      currentPath := pathIndices
      bestPath := pathIndices
      distances := [initialDistance]
      currentDistance := initialDistance
      bestDistance := initialDistance
      temperature := params.initialTemperature
      iteration := 0
      totalIterations := params.totalIterations
      isRunning := true
      animationSpeed := 1 }

/-- Iterated stepping of the TSP engine; the draw triple for step t is d t. -/
noncomputable def stepIter (params : SimulationParams) (d : ℕ → ℝ × ℝ × ℝ) :
    ℕ → SimulationState → SimulationState
  | 0, s => s
  | t + 1, s =>
      let s' := stepIter params d t s
      simulationStep s' params (d t).1 (d t).2.1 (d t).2.2

/-- States reachable by the driver protocol: initialization on at least
three cities followed by any number of steps, with arbitrary draws. -/
inductive TSPReachable (cities : List City) (params : SimulationParams) :
    SimulationState → Prop
  | init (g : ℕ → ℝ) (h : 3 ≤ cities.length) :
      TSPReachable cities params (initializeSimulation cities params g)
  | step (s : SimulationState) (ri rj racc : ℝ) :
      TSPReachable cities params s →
      TSPReachable cities params (simulationStep s params ri rj racc)

/-! ## Bitstring (toy) annealing engine (simulatedAnnealingToy module)

States are natural numbers, objective values are reals.  Random-consuming
functions take a draw stream and return the advanced stream, so that the
exact entropy schedule of the source is preserved. -/

inductive ToyNeighborType where
  | singleBitFlip
  | twoBitFlip
  | randomWalk

inductive ToyCoolingSchedule where
  | geometric
  | linear
  | logarithmic

structure ToySimulationParams where
  r : ℕ
  maxIterations : ℕ
  initialTemperature : ℝ
  coolingRate : ℝ
  neighborType : ToyNeighborType
  coolingSchedule : ToyCoolingSchedule
  coefficients : List ℝ

structure IterationData where
  iteration : ℕ
  state : ℕ
  value : ℝ
  bestValue : ℝ
  temperature : ℝ
  acceptanceProbability : ℝ
  binaryRepresentation : List ℕ

structure SearchPoint where
  state : ℕ
  value : ℝ

structure SimulatedAnnealingToyState where
  history : List IterationData
  bestState : ℕ
  bestValue : ℝ
  acceptedWorse : ℕ
  currentIteration : ℕ
  searchSpace : List SearchPoint
  currentState : ℕ
  currentValue : ℝ
  isComplete : Bool

/-- Embeds evaluatePolynomial: reduce over the coefficients, index equals
the power. -/
noncomputable def evaluatePolynomial (n : ℝ) (coefficients : List ℝ) : ℝ :=
  coefficients.enum.foldl (fun sum ic => sum + ic.2 * n ^ ic.1) 0

/-- Binary digits of a natural number, most significant bit first, as
toString(2) produces them (0 prints as the single digit 0). -/
def natToBin : ℕ → List ℕ
  | 0 => [0]
  | n + 1 => go (n + 1) []
where
  go : ℕ → List ℕ → List ℕ
    | 0, acc => acc
    | n + 1, acc => go ((n + 1) / 2) (((n + 1) % 2) :: acc)
  termination_by n _ => n
  decreasing_by
    exact Nat.div_lt_self (Nat.succ_pos n) (by omega)

/-- padStart(r, 0): left-pad with zeros up to length r (no truncation). -/
def padLeft (r : ℕ) (l : List ℕ) : List ℕ :=
  List.replicate (r - l.length) 0 ++ l

/-- Embeds intToBinaryArray.  The source computes a clamped copy of n but
then converts n itself; this embedding does the same. -/
def intToBinaryArray (n r : ℕ) : List ℕ :=
  if r = 0 then [] else padLeft r (natToBin n)

/-- Embeds binaryArrayToInt: parseInt of the joined digits in base 2,
which on arrays of binary digits is the usual fold. -/
def binaryArrayToInt (binaryArray : List ℕ) : ℕ :=
  if binaryArray = [] then 0
  else binaryArray.foldl (fun acc b => 2 * acc + b) 0

/-- Flip a bit cell of the array, as the source assignment
cell := 1 - cell. -/
def flipAt (l : List ℕ) (i : ℕ) : List ℕ :=
  l.set i (1 - l.getD i 0)

/-- Embeds singleBitFlipNeighbor: one draw picks the bit to flip. -/
noncomputable def singleBitFlipNeighbor (state r : ℕ) (g : ℕ → ℝ) : ℕ × (ℕ → ℝ) :=
  if r = 0 then (state, g)
  else
    let binaryArray := intToBinaryArray state r
    let flipIndex := randIdx (g 0) r
    (binaryArrayToInt (flipAt binaryArray flipIndex), fun k => g (k + 1))

/-- Embeds twoBitFlipNeighbor.  The source resamples the second index
until it differs from the first; the embedding takes the draw at the
first position after the first draw whose index differs.  On a stream
where no later draw ever differs the source diverges; that case is mapped
to returning the state unchanged (it is unreachable for any stream a
claim evaluates). -/
noncomputable def twoBitFlipNeighbor (state r : ℕ) (g : ℕ → ℝ) : ℕ × (ℕ → ℝ) :=
  if r < 2 then (state, g)
  else
    let binaryArray := intToBinaryArray state r
    let first := randIdx (g 0) r
    haveI : DecidablePred fun k => randIdx (g (k + 1)) r ≠ first :=
      fun _k => Classical.dec _
    haveI : Decidable (∃ k, randIdx (g (k + 1)) r ≠ first) := Classical.dec _
    if h : ∃ k, randIdx (g (k + 1)) r ≠ first then
      let k := Nat.find h
      let second := randIdx (g (k + 1)) r
      (binaryArrayToInt (flipAt (flipAt binaryArray first) second),
        fun m => g (m + k + 2))
    else (state, g)

/-- Embeds randomWalkNeighbor: one draw over the whole space, the current
state being ignored. -/
noncomputable def randomWalkNeighbor (_state r : ℕ) (g : ℕ → ℝ) : ℕ × (ℕ → ℝ) :=
  if r = 0 then (0, g)
  else (randIdx (g 0) (2 ^ r), fun k => g (k + 1))

/-- Embeds generateNeighbor: dispatch on the configured strategy. -/
noncomputable def generateNeighbor (state r : ℕ) (neighborType : ToyNeighborType)
    (g : ℕ → ℝ) : ℕ × (ℕ → ℝ) :=
  match neighborType with
  | .singleBitFlip => singleBitFlipNeighbor state r g
  | .twoBitFlip => twoBitFlipNeighbor state r g
  | .randomWalk => randomWalkNeighbor state r g

/-- Embeds calculateTemperature for the three cooling schedules. -/
noncomputable def calculateTemperature (iteration : ℕ) (initialTemp coolingRate : ℝ)
    (maxIterations : ℕ) (coolingSchedule : ToyCoolingSchedule) : ℝ :=
  match coolingSchedule with
  | .geometric => initialTemp * coolingRate ^ iteration
  | .linear =>
      max (initialTemp - (initialTemp / (maxIterations : ℝ)) * (iteration : ℝ)) 0.001
  | .logarithmic =>
      max (initialTemp / (1 + Real.log (1 + (iteration : ℝ) + 1))) 0.001

/-- Embeds calculateAcceptanceProbability: certain acceptance on
improvement, rejection at frozen temperature, Boltzmann factor otherwise. -/
noncomputable def calculateAcceptanceProbability (currentValue neighborValue temperature : ℝ) : ℝ :=
  let delta := neighborValue - currentValue
  if 0 ≤ delta then 1
  else if temperature ≤ 1e-6 then 0
  else Real.exp (delta / temperature)

/-- Embeds getInitialToyState.  The source stores -Infinity as the best
value sentinel; the reals have no bottom element, and this state is only
produced on the degenerate bit-width r = 0, where no claim reads the
field, so an arbitrary real stands in. -/
def getInitialToyState : SimulatedAnnealingToyState :=
  { history := []
    bestState := 0
    bestValue := 0
    acceptedWorse := 0
    currentIteration := 0
    searchSpace := []
    currentState := 0
    currentValue := 0
    isComplete := false }

/-- The search space generated for visualization when r is at most 8. -/
noncomputable def toySearchSpace (r : ℕ) (coefficients : List ℝ) : List SearchPoint :=
  if r ≤ 8 then
    (List.range (2 ^ r)).map (fun st => ⟨st, evaluatePolynomial st coefficients⟩)
  else []

/-- The loop-carried variables of the runToySimulation for-loop. -/
structure ToyLoopState where
  currentState : ℕ
  currentValue : ℝ
  bestState : ℕ
  bestValue : ℝ
  acceptedWorse : ℕ
  history : List IterationData

/-- The pre-loop part of runToySimulation: draw the initial state (one
draw) and push the iteration-0 record. -/
noncomputable def toyInitLS (params : ToySimulationParams) (g : ℕ → ℝ) : ToyLoopState :=
  let currentState := randIdx (g 0) (2 ^ params.r)
  let currentValue := evaluatePolynomial currentState params.coefficients
  let initialTemp := calculateTemperature 0 params.initialTemperature
    params.coolingRate params.maxIterations params.coolingSchedule
  { currentState := currentState
    currentValue := currentValue
    bestState := currentState
    bestValue := currentValue
    acceptedWorse := 0
    history := [{ iteration := 0
                  state := currentState
                  value := currentValue
                  bestValue := currentValue
                  temperature := initialTemp
                  acceptanceProbability := 1
                  binaryRepresentation := intToBinaryArray currentState params.r }] }

/-- The body of the runToySimulation for-loop at a given iteration index. -/
noncomputable def toyLoopBody (params : ToySimulationParams) (iteration : ℕ)
    (ls : ToyLoopState) (g : ℕ → ℝ) : ToyLoopState × (ℕ → ℝ) :=
  let temperature := calculateTemperature iteration params.initialTemperature
    params.coolingRate params.maxIterations params.coolingSchedule
  let gen := generateNeighbor ls.currentState params.r params.neighborType g
  let neighborState := gen.1
  let neighborValue := evaluatePolynomial neighborState params.coefficients
  let acceptanceProbability :=
    calculateAcceptanceProbability ls.currentValue neighborValue temperature
  let shouldAccept : Prop := gen.2 0 < acceptanceProbability
  let g2 : ℕ → ℝ := fun k => gen.2 (k + 1)
  let acceptedWorse :=
    if shouldAccept ∧ neighborValue < ls.currentValue then ls.acceptedWorse + 1
    else ls.acceptedWorse
  let currentState := if shouldAccept then neighborState else ls.currentState
  let currentValue := if shouldAccept then neighborValue else ls.currentValue
  let best : ℕ × ℝ :=
    if ls.bestValue < currentValue then (currentState, currentValue)
    else (ls.bestState, ls.bestValue)
  ({ currentState := currentState
     currentValue := currentValue
     bestState := best.1
     bestValue := best.2
     acceptedWorse := acceptedWorse
     history := ls.history ++
       [{ iteration := iteration
          state := currentState
          value := currentValue
          bestValue := best.2
          temperature := temperature
          acceptanceProbability := acceptanceProbability
          binaryRepresentation := intToBinaryArray currentState params.r }] }, g2)

/-- Runs fuel consecutive iterations of the runToySimulation loop body,
starting at the given iteration index. -/
noncomputable def toyLoop (params : ToySimulationParams) : ℕ → ℕ → ToyLoopState →
    (ℕ → ℝ) → ToyLoopState × (ℕ → ℝ)
  | _, 0, ls, g => (ls, g)
  | i, fuel + 1, ls, g =>
      let step := toyLoopBody params i ls g
      toyLoop params (i + 1) fuel step.1 step.2

/-- Embeds runToySimulation: initialize, run the loop for iterations
1..maxIterations, and package the final snapshot. -/
noncomputable def runToySimulation (params : ToySimulationParams) (g : ℕ → ℝ) :
    SimulatedAnnealingToyState :=
  if params.r = 0 then getInitialToyState
  else
    let ls0 := toyInitLS params g
    let lsF := (toyLoop params 1 params.maxIterations ls0 (fun k => g (k + 1))).1
    { history := lsF.history
      bestState := lsF.bestState
      bestValue := lsF.bestValue
      acceptedWorse := lsF.acceptedWorse
      currentIteration := min params.maxIterations (lsF.history.length - 1)
      searchSpace := toySearchSpace params.r params.coefficients
      currentState := lsF.currentState
      currentValue := lsF.currentValue
      isComplete := true }

/-- Embeds runSingleIteration: a no-op (apart from the terminal flag) on
terminal states, otherwise one annealing step that appends one history
record and advances the iteration counter. -/
noncomputable def runSingleIteration (currentState : SimulatedAnnealingToyState)
    (params : ToySimulationParams) (g : ℕ → ℝ) :
    SimulatedAnnealingToyState × (ℕ → ℝ) :=
  if params.maxIterations ≤ currentState.currentIteration ∨ currentState.isComplete then
    ({ currentState with isComplete := true }, g)
  else
    let nextIteration := currentState.currentIteration + 1
    let temperature := calculateTemperature nextIteration params.initialTemperature
      params.coolingRate params.maxIterations params.coolingSchedule
    let gen := generateNeighbor currentState.currentState params.r params.neighborType g
    let neighborState := gen.1
    let neighborValue := evaluatePolynomial neighborState params.coefficients
    let acceptanceProbability := calculateAcceptanceProbability
      currentState.currentValue neighborValue temperature
    let shouldAccept : Prop := gen.2 0 < acceptanceProbability
    let g2 : ℕ → ℝ := fun k => gen.2 (k + 1)
    let newAcceptedWorse :=
      if shouldAccept ∧ neighborValue < currentState.currentValue then
        currentState.acceptedWorse + 1
      else currentState.acceptedWorse
    let newCurrentState := if shouldAccept then neighborState else currentState.currentState
    let newCurrentValue := if shouldAccept then neighborValue else currentState.currentValue
    let newBest : ℕ × ℝ :=
      if currentState.bestValue < newCurrentValue then (newCurrentState, newCurrentValue)
      else (currentState.bestState, currentState.bestValue)
    ({ currentState with
        history := currentState.history ++
          [{ iteration := nextIteration
             state := newCurrentState
             value := newCurrentValue
             bestValue := newBest.2
             temperature := temperature
             acceptanceProbability := acceptanceProbability
             binaryRepresentation := intToBinaryArray newCurrentState params.r }]
        bestState := newBest.1
        bestValue := newBest.2
        acceptedWorse := newAcceptedWorse
        currentIteration := nextIteration
        currentState := newCurrentState
        currentValue := newCurrentValue
        isComplete := decide (params.maxIterations ≤ nextIteration) }, g2)

/-- Embeds initializeToySimulation. -/
noncomputable def initializeToySimulation (params : ToySimulationParams) (g : ℕ → ℝ) :
    SimulatedAnnealingToyState × (ℕ → ℝ) :=
  if params.r = 0 then (getInitialToyState, g)
  else
    let ls0 := toyInitLS params g
    ({ history := ls0.history
       bestState := ls0.bestState
       bestValue := ls0.bestValue
       acceptedWorse := 0
       currentIteration := 0
       searchSpace := toySearchSpace params.r params.coefficients
       currentState := ls0.currentState
       currentValue := ls0.currentValue
       isComplete := false }, fun k => g (k + 1))

/-- Iterated single stepping of the toy engine from a state and stream. -/
noncomputable def toyStepN (params : ToySimulationParams) :
    ℕ → SimulatedAnnealingToyState × (ℕ → ℝ) → SimulatedAnnealingToyState × (ℕ → ℝ)
  | 0, sg => sg
  | k + 1, sg =>
      let sg' := toyStepN params k sg
      runSingleIteration sg'.1 params sg'.2

/-! ## Specification-side notions for the tour-cost claim

These two definitions formalize the language of the claim itself (the k
edge lengths of the closed tour, and the cost of a closed cycle of
cities); they are compared against calculatePathDistance, which is the
embedding of the source. -/

/-- The list of the k edge lengths of the closed tour: start city to
first path entry, the consecutive edges along the path, and the last path
entry back to the start. -/
noncomputable def tourEdges (cities : List City) (path : List ℕ) : List ℝ :=
  distance (cityAt cities 0) (cityAt cities (path.getD 0 0)) ::
    ((List.range (path.length - 1)).map (fun i =>
      distance (cityAt cities (path.getD i 0)) (cityAt cities (path.getD (i + 1) 0))) ++
    [distance (cityAt cities (path.getD (path.length - 1) 0)) (cityAt cities 0)])

/-- The cost of a closed cycle of cities: the sum over all positions of
the distance to the cyclically next position. -/
noncomputable def cycleCost (cs : List City) : ℝ :=
  Finset.sum (Finset.range cs.length)
    (fun i => distance (cs.getD i ⟨0, 0, 0⟩) (cs.getD ((i + 1) % cs.length) ⟨0, 0, 0⟩))

/-! ## Concrete fixtures used by witnesses -/

def cities3 : List City := [⟨0, 0, 0⟩, ⟨1, 1, 0⟩, ⟨2, 0, 1⟩]

noncomputable def tspParams1 : SimulationParams :=
  { initialTemperature := 1000, coolingRate := 99 / 100, totalIterations := 10 }

def tspState1 : SimulationState :=
  { cities := cities3
    currentPath := [1, 2]
    bestPath := [1, 2]
    distances := []
    currentDistance := 0
    bestDistance := 0
    temperature := 100
    iteration := 0
    totalIterations := 10
    isRunning := true
    animationSpeed := 1 }

noncomputable def toyParams1 : ToySimulationParams :=
  { r := 1
    maxIterations := 1
    initialTemperature := 1
    coolingRate := 1 / 2
    neighborType := .singleBitFlip
    coolingSchedule := .geometric
    coefficients := [] }

def probs1 : List ℚ := [3 / 10, 1 / 10, 1 / 10, 1 / 4, 1 / 4]

/-! ## Theorems -/

/-- C10: on a state that is already terminal (isComplete set, or the
iteration counter at or past maxIterations), runSingleIteration returns
the state with only the isComplete flag forced to true and every other
field unchanged, and consumes no draws. -/
theorem toy_step_terminal_noop (s : SimulatedAnnealingToyState)
    (params : ToySimulationParams) (g : ℕ → ℝ)
    (h : s.isComplete = true ∨ params.maxIterations ≤ s.currentIteration) :
    runSingleIteration s params g = ({ s with isComplete := true }, g) := by
  have hc : params.maxIterations ≤ s.currentIteration ∨ s.isComplete := by
    rcases h with h | h
    · exact Or.inr (by simp [h])
    · exact Or.inl h
  rw [runSingleIteration, if_pos hc]

/-- Witness for C10 at a concrete terminal state. -/
theorem toy_step_terminal_noop_witness :
    runSingleIteration { getInitialToyState with isComplete := true } toyParams1
      (fun _ => 0) = ({ getInitialToyState with isComplete := true }, fun _ => 0) :=
  toy_step_terminal_noop _ _ _ (Or.inl rfl)

/-- C5 counterexample: the claim says a step on a state with fewer than
three cities leaves the state unchanged, but on a running such state the
step clears the isRunning flag, so the result differs from the input. -/
theorem tsp_insufficient_cities_not_unchanged :
    ({ getInitialState with isRunning := true } : SimulationState).cities.length < 3 ∧
    simulationStep { getInitialState with isRunning := true } tspParams1 0 0 0 ≠
      { getInitialState with isRunning := true } := by
  refine ⟨by decide, fun h => ?_⟩
  have hstep : simulationStep { getInitialState with isRunning := true } tspParams1 0 0 0 =
      { ({ getInitialState with isRunning := true } : SimulationState) with
          isRunning := false } := by
    rw [simulationStep, if_pos (Or.inl (by decide))]
  rw [hstep] at h
  simpa using congrArg SimulationState.isRunning h

/-- C5 amended: with fewer than three cities the engine refuses to start
by returning the inert default state (no cities, not running) rather than
a started run, and a step on a state with fewer than three cities returns
its input with only the isRunning flag cleared. -/
theorem tsp_insufficient_cities_inert :
    (∀ (cities : List City) (params : SimulationParams) (g : ℕ → ℝ),
      cities.length < 3 → initializeSimulation cities params g = getInitialState) ∧
    (∀ (s : SimulationState) (params : SimulationParams) (ri rj racc : ℝ),
      s.cities.length < 3 →
      simulationStep s params ri rj racc = { s with isRunning := false }) := by
  constructor
  · intro cities params g h
    rw [initializeSimulation, if_pos h]
  · intro s params ri rj racc h
    rw [simulationStep, if_pos (Or.inl h)]

/-- Witness for the amended C5 at concrete inputs. -/
theorem tsp_insufficient_cities_inert_witness :
    initializeSimulation [] tspParams1 (fun _ => 0) = getInitialState ∧
    simulationStep getInitialState tspParams1 0 0 0 =
      { getInitialState with isRunning := false } :=
  ⟨tsp_insufficient_cities_inert.1 [] tspParams1 (fun _ => 0) (by decide),
   tsp_insufficient_cities_inert.2 getInitialState tspParams1 0 0 0 (by decide)⟩

/-- C8 counterexample: the claim asks for the uniform fallback on every
weight vector with sum at most zero, but the source tests the sum against
zero exactly; on the vector [-1, 0] the sum is negative and the result is
division by that negative sum, not the uniform distribution. -/
theorem normalizeProbs_negative_sum_not_uniform :
    (([-1, 0] : List ℚ).sum ≤ 0) ∧
    normalizeProbs [-1, 0] ≠
      ([-1, 0] : List ℚ).map (fun _ => 1 / ((([-1, 0] : List ℚ).length : ℚ))) := by
  constructor
  · norm_num
  · rw [normalizeProbs]
    norm_num

/-- C8 amended: normalization never fails; on a weight vector whose sum
is exactly zero (in particular on every non-negative vector whose sum is
at most zero, such as the all-zero vector) it returns the uniform
distribution with every entry 1/n, and on every vector with nonzero sum
(in particular every non-negative vector with positive sum) it returns
the entries divided by the sum. -/
theorem normalizeProbs_spec (probs : List ℚ) :
    (probs.sum = 0 → normalizeProbs probs = probs.map (fun _ => 1 / (probs.length : ℚ))) ∧
    ((∀ x ∈ probs, 0 ≤ x) → probs.sum ≤ 0 →
      normalizeProbs probs = probs.map (fun _ => 1 / (probs.length : ℚ))) ∧
    (probs.sum ≠ 0 → normalizeProbs probs = probs.map (fun p => p / probs.sum)) := by
  have hfold : probs.foldl (fun acc val => acc + val) 0 = probs.sum := by
    simp [List.sum_eq_foldl]
  refine ⟨fun h => ?_, fun hnn hle => ?_, fun h => ?_⟩
  · rw [normalizeProbs]
    simp [hfold, h]
  · have h0 : probs.sum = 0 := le_antisymm hle (List.sum_nonneg hnn)
    rw [normalizeProbs]
    simp [hfold, h0]
  · rw [normalizeProbs]
    simp only [hfold, if_neg h]

/-- Witness for the amended C8: the all-zero vector falls back to the
uniform distribution and a positive-sum vector is divided by its sum. -/
theorem normalizeProbs_spec_witness :
    normalizeProbs [0, 0] = ([0, 0] : List ℚ).map (fun _ => 1 / ((([0, 0] : List ℚ).length : ℚ))) ∧
    normalizeProbs [1, 3] = ([1, 3] : List ℚ).map (fun p => p / ([1, 3] : List ℚ).sum) :=
  ⟨(normalizeProbs_spec [0, 0]).1 (by norm_num),
   (normalizeProbs_spec [1, 3]).2.2 (by norm_num)⟩

/-- C9: on a state with at least three cities and iteration below the
bound, when the two drawn swap positions coincide the step does not
stall: the iteration counter advances by one, the distances log is
extended by exactly the cost of the unchanged current path, the
temperature cools by one factor, and every other field, in particular
currentPath and bestPath, is unchanged. -/
theorem tsp_step_equal_swap_indices (s : SimulationState) (params : SimulationParams)
    (ri rj racc : ℝ) (h3 : 3 ≤ s.cities.length) (hit : s.iteration < s.totalIterations)
    (hij : randIdx ri (s.cities.length - 1) = randIdx rj (s.cities.length - 1)) :
    simulationStep s params ri rj racc =
      { s with
          distances := s.distances ++ [calculatePathDistance s.cities s.currentPath]
          temperature := s.temperature * params.coolingRate
          iteration := s.iteration + 1 } := by
  have hc1 : ¬(s.cities.length < 3 ∨ s.totalIterations ≤ s.iteration) := by
    push_neg
    omega
  simp only [simulationStep]
  rw [if_neg hc1, if_neg (show ¬randIdx ri (s.cities.length - 1) ≠
    randIdx rj (s.cities.length - 1) from fun hne => hne hij)]

/-- Witness for C9 at a concrete three-city state with both draws zero. -/
theorem tsp_step_equal_swap_indices_witness :
    simulationStep tspState1 tspParams1 0 0 0 =
      { tspState1 with
          distances := tspState1.distances ++
            [calculatePathDistance tspState1.cities tspState1.currentPath]
          temperature := tspState1.temperature * tspParams1.coolingRate
          iteration := tspState1.iteration + 1 } :=
  tsp_step_equal_swap_indices tspState1 tspParams1 0 0 0 (by decide) (by decide) rfl

/-- On a non-terminal state every branch of simulationStep multiplies the
temperature by the cooling rate, advances the iteration counter by one
and leaves the cities and the iteration bound unchanged. -/
theorem simulationStep_running_fields (s : SimulationState) (params : SimulationParams)
    (ri rj racc : ℝ) (h3 : 3 ≤ s.cities.length) (hit : s.iteration < s.totalIterations) :
    (simulationStep s params ri rj racc).temperature = s.temperature * params.coolingRate ∧
    (simulationStep s params ri rj racc).iteration = s.iteration + 1 ∧
    (simulationStep s params ri rj racc).cities = s.cities ∧
    (simulationStep s params ri rj racc).totalIterations = s.totalIterations := by
  have hc1 : ¬(s.cities.length < 3 ∨ s.totalIterations ≤ s.iteration) := by
    push_neg
    omega
  simp only [simulationStep]
  rw [if_neg hc1]
  split
  · split <;> simp
  · simp

/-- Invariant driving the TSP half of C7: after t steps from a proper
initialization, the iteration counter is t and the temperature is the
initial temperature times the cooling rate to the t. -/
theorem tsp_temperature_invariant (cities : List City) (params : SimulationParams)
    (g : ℕ → ℝ) (d : ℕ → ℝ × ℝ × ℝ) (t : ℕ) (h3 : 3 ≤ cities.length)
    (ht : t ≤ params.totalIterations) :
    (stepIter params d t (initializeSimulation cities params g)).temperature =
      params.initialTemperature * params.coolingRate ^ t ∧
    (stepIter params d t (initializeSimulation cities params g)).iteration = t ∧
    (stepIter params d t (initializeSimulation cities params g)).cities = cities ∧
    (stepIter params d t (initializeSimulation cities params g)).totalIterations =
      params.totalIterations := by
  induction t with
  | zero =>
      rw [initializeSimulation, if_neg (by omega)]
      simp [stepIter]
  | succ t ih =>
      have ih' := ih (by omega)
      obtain ⟨htemp, hiter, hcities, htotal⟩ := ih'
      have hfields := simulationStep_running_fields
        (stepIter params d t (initializeSimulation cities params g)) params
        (d t).1 (d t).2.1 (d t).2.2 (by rw [hcities]; exact h3)
        (by rw [hiter, htotal]; omega)
      refine ⟨?_, ?_, ?_, ?_⟩
      · rw [stepIter, hfields.1, htemp, pow_succ, mul_assoc]
      · rw [stepIter, hfields.2.1, hiter]
      · rw [stepIter, hfields.2.2.1, hcities]
      · rw [stepIter, hfields.2.2.2, htotal]

/-- C7: under the geometric schedule the temperature at iteration t is
exactly the initial temperature times the rate to the t, both as computed
by calculateTemperature and as reached by the TSP engine, which cools by
one multiplication per step, after t steps from initialization. -/
theorem geometric_cooling_exact :
    (∀ (t maxIter : ℕ) (T0 rate : ℝ), t ≤ maxIter →
      calculateTemperature t T0 rate maxIter .geometric = T0 * rate ^ t) ∧
    (∀ (cities : List City) (params : SimulationParams) (g : ℕ → ℝ)
      (d : ℕ → ℝ × ℝ × ℝ) (t : ℕ), 3 ≤ cities.length → t ≤ params.totalIterations →
      (stepIter params d t (initializeSimulation cities params g)).temperature =
        params.initialTemperature * params.coolingRate ^ t) :=
  ⟨fun _ _ _ _ _ => rfl,
   fun cities params g d t h3 ht =>
    (tsp_temperature_invariant cities params g d t h3 ht).1⟩

/-- Witness for C7 at concrete inputs: the schedule at iteration 2 and
the engine temperature after one step. -/
theorem geometric_cooling_exact_witness :
    calculateTemperature 2 5 (1 / 2) 10 .geometric = 5 * (1 / 2 : ℝ) ^ 2 ∧
    (stepIter tspParams1 (fun _ => (0, 0, 0)) 1
        (initializeSimulation cities3 tspParams1 (fun _ => 0))).temperature =
      tspParams1.initialTemperature * tspParams1.coolingRate ^ 1 :=
  ⟨geometric_cooling_exact.1 2 10 5 (1 / 2) (by decide),
   geometric_cooling_exact.2 cities3 tspParams1 (fun _ => 0) (fun _ => (0, 0, 0)) 1
     (by decide) (by decide)⟩

theorem swapL_length (l : List ℕ) (i j : ℕ) : (swapL l i j).length = l.length := by
  simp [swapL]

theorem shuffleGo_length (g : ℕ → ℝ) :
    ∀ (i pos : ℕ) (a : List ℕ), (shuffleGo g pos a i).length = a.length := by
  intro i
  induction i with
  | zero => intro pos a; rfl
  | succ i ih =>
      intro pos a
      rw [shuffleGo, ih, swapL_length]

theorem shuffleArray_length (a : List ℕ) (g : ℕ → ℝ) :
    (shuffleArray a g).length = a.length := by
  rw [shuffleArray, shuffleGo_length]

/-- One step leaves the length of the current path unchanged and either
keeps the best path or replaces it by a permutation of the current path
(whose length it then shares). -/
theorem simulationStep_path_lengths (s : SimulationState) (params : SimulationParams)
    (ri rj racc : ℝ) :
    (simulationStep s params ri rj racc).currentPath.length = s.currentPath.length ∧
    ((simulationStep s params ri rj racc).bestPath = s.bestPath ∨
      (simulationStep s params ri rj racc).bestPath.length = s.currentPath.length) := by
  simp only [simulationStep]
  split
  · exact ⟨rfl, Or.inl rfl⟩
  · split
    · split
      · split <;> simp [swapL_length]
      · exact ⟨rfl, Or.inl rfl⟩
    · exact ⟨rfl, Or.inl rfl⟩

/-- Reachable states have nonempty current and best paths. -/
theorem tsp_reachable_paths (cities : List City) (params : SimulationParams)
    (s : SimulationState) (h : TSPReachable cities params s) :
    1 ≤ s.currentPath.length ∧ 1 ≤ s.bestPath.length := by
  induction h with
  | init g h3 =>
      rw [initializeSimulation, if_neg (by omega)]
      constructor <;>
        simp [shuffleArray_length, List.length_range'] <;> omega
  | step s' ri rj racc _ ih =>
      have hp := simulationStep_path_lengths s' params ri rj racc
      refine ⟨by omega, ?_⟩
      rcases hp.2 with h | h
      · rw [h]; exact ih.2
      · omega

/-- One step never increases the best distance, provided the best path is
nonempty (as it is on every reachable state). -/
theorem simulationStep_best_mono (s : SimulationState) (params : SimulationParams)
    (ri rj racc : ℝ) (hb : s.bestPath.length ≠ 0) :
    (simulationStep s params ri rj racc).bestDistance ≤ s.bestDistance := by
  simp only [simulationStep]
  split
  · exact le_refl _
  · split
    · split
      · split
        · rename_i hcond
          rcases hcond with h | h
          · exact absurd h hb
          · simpa using le_of_lt h
        · simp
      · exact le_refl _
    · exact le_refl _

/-- The single toy step never decreases the best value. -/
theorem runSingleIteration_best_mono (s : SimulatedAnnealingToyState)
    (params : ToySimulationParams) (g : ℕ → ℝ) :
    s.bestValue ≤ (runSingleIteration s params g).1.bestValue := by
  simp only [runSingleIteration]
  split
  · exact le_refl _
  · split
    · split
      · rename_i hlt
        simpa using le_of_lt hlt
      · simp
    · split
      · rename_i hlt
        simpa using le_of_lt hlt
      · simp

/-- The loop of the batch toy run keeps the history of best values
non-decreasing and bounded by the running best. -/
theorem toyLoop_history_bestValue (params : ToySimulationParams) :
    ∀ (fuel i : ℕ) (ls : ToyLoopState) (g : ℕ → ℝ),
    (ls.history.map (fun e => e.bestValue)).Pairwise (· ≤ ·) →
    (∀ v ∈ ls.history.map (fun e => e.bestValue), v ≤ ls.bestValue) →
    ((toyLoop params i fuel ls g).1.history.map (fun e => e.bestValue)).Pairwise (· ≤ ·) ∧
    (∀ v ∈ (toyLoop params i fuel ls g).1.history.map (fun e => e.bestValue),
      v ≤ (toyLoop params i fuel ls g).1.bestValue) := by
  intro fuel
  induction fuel with
  | zero => intro i ls g h1 h2; exact ⟨h1, h2⟩
  | succ fuel ih =>
      intro i ls g h1 h2
      rw [toyLoop]
      set step := toyLoopBody params i ls g with hstep
      have hmono : ls.bestValue ≤ step.1.bestValue := by
        rw [hstep]
        simp only [toyLoopBody]
        split
        · split
          · rename_i hlt
            simpa using le_of_lt hlt
          · simp
        · split
          · rename_i hlt
            simpa using le_of_lt hlt
          · simp
      have hhist : step.1.history.map (fun e => e.bestValue) =
          ls.history.map (fun e => e.bestValue) ++ [step.1.bestValue] := by
        rw [hstep]
        simp only [toyLoopBody]
        simp
      refine ih (i + 1) step.1 step.2 ?_ ?_
      · rw [hhist, List.pairwise_append]
        refine ⟨h1, by simp, ?_⟩
        intro a ha b hb
        simp only [List.mem_singleton] at hb
        subst hb
        exact le_trans (h2 a ha) hmono
      · intro v hv
        rw [hhist] at hv
        rcases List.mem_append.mp hv with h | h
        · exact le_trans (h2 v h) hmono
        · simp only [List.mem_singleton] at h
          subst h
          exact le_refl _

/-- C6: the best value is monotone across any run.  For the TSP engine
the best distance after a step on any reachable state is at most the best
distance before it; for the bitstring engine the best value after a
single step is at least the best value before it, and within the history
of a batch run the recorded best values are non-decreasing. -/
theorem best_value_monotone :
    (∀ (cities : List City) (params : SimulationParams) (s : SimulationState),
      TSPReachable cities params s → ∀ ri rj racc : ℝ,
      (simulationStep s params ri rj racc).bestDistance ≤ s.bestDistance) ∧
    (∀ (s : SimulatedAnnealingToyState) (params : ToySimulationParams) (g : ℕ → ℝ),
      s.bestValue ≤ (runSingleIteration s params g).1.bestValue) ∧
    (∀ (params : ToySimulationParams) (g : ℕ → ℝ),
      ((runToySimulation params g).history.map (fun e => e.bestValue)).Pairwise (· ≤ ·)) := by
  refine ⟨?_, runSingleIteration_best_mono, ?_⟩
  · intro cities params s h ri rj racc
    exact simulationStep_best_mono s params ri rj racc
      (by have := (tsp_reachable_paths cities params s h).2; omega)
  · intro params g
    rw [runToySimulation]
    split
    · simp [getInitialToyState]
    · have := toyLoop_history_bestValue params params.maxIterations 1
        (toyInitLS params g) (fun k => g (k + 1)) (by simp [toyInitLS]) (by simp [toyInitLS])
      exact this.1

/-- Witness for C6 at concrete states of both engines. -/
theorem best_value_monotone_witness :
    (simulationStep (initializeSimulation cities3 tspParams1 (fun _ => 0))
        tspParams1 0 0 0).bestDistance ≤
      (initializeSimulation cities3 tspParams1 (fun _ => 0)).bestDistance ∧
    getInitialToyState.bestValue ≤
      (runSingleIteration getInitialToyState toyParams1 (fun _ => 0)).1.bestValue ∧
    ((runToySimulation toyParams1 (fun _ => 0)).history.map
      (fun e => e.bestValue)).Pairwise (· ≤ ·) :=
  ⟨best_value_monotone.1 cities3 tspParams1 _
      (TSPReachable.init (fun _ => 0) (by decide)) 0 0 0,
   best_value_monotone.2.1 getInitialToyState toyParams1 (fun _ => 0),
   best_value_monotone.2.2 toyParams1 (fun _ => 0)⟩

theorem distance_nonneg (city1 city2 : City) : 0 ≤ distance city1 city2 :=
  Real.sqrt_nonneg _

theorem foldl_add_eq_sum (f : ℕ → ℝ) :
    ∀ (l : List ℕ) (init : ℝ),
      l.foldl (fun acc x => acc + f x) init = init + (l.map f).sum := by
  intro l
  induction l with
  | nil => intro init; simp
  | cons a t ih =>
      intro init
      rw [List.foldl_cons, ih, List.map_cons, List.sum_cons]
      ring

theorem map_range_sum {M : Type} [AddCommMonoid M] (f : ℕ → M) :
    ∀ n : ℕ, ((List.range n).map f).sum = Finset.sum (Finset.range n) f := by
  intro n
  induction n with
  | zero => simp
  | succ n ih =>
      rw [List.range_succ, List.map_append, List.sum_append, ih, Finset.sum_range_succ]
      simp

theorem getD_map_of_lt (f : ℕ → City) (l : List ℕ) (i : ℕ) (h : i < l.length) (d : City) :
    (l.map f).getD i d = f (l.getD i 0) := by
  rw [List.getD_eq_getElem _ _ (by simpa using h), List.getElem_map,
    List.getD_eq_getElem _ _ h]

theorem sum_range_cyclic (h : ℕ → ℝ) (m : ℕ) :
    Finset.sum (Finset.range (m + 1)) (fun i => h ((i + 1) % (m + 1))) =
      Finset.sum (Finset.range (m + 1)) h := by
  rw [Finset.sum_range_succ, Finset.sum_range_succ' h]
  congr 1
  · refine Finset.sum_congr rfl ?_
    intro i hi
    rw [Nat.mod_eq_of_lt (by simp only [Finset.mem_range] at hi; omega)]
  · rw [Nat.mod_self]

theorem cycleCost_rotate_one (cs : List City) : cycleCost (cs.rotate 1) = cycleCost cs := by
  rcases cs with _ | ⟨c, t⟩
  · rfl
  · have hlen : ((c :: t).rotate 1).length = t.length + 1 := by
      rw [List.length_rotate]; rfl
    have hL : (c :: t).length = t.length + 1 := rfl
    have hrot : ∀ i, i < t.length + 1 →
        ((c :: t).rotate 1).getD i ⟨0, 0, 0⟩ =
          (c :: t).getD ((i + 1) % (t.length + 1)) ⟨0, 0, 0⟩ := by
      intro i hi
      rw [List.getD_eq_getElem _ _ (by omega : i < ((c :: t).rotate 1).length),
        List.getElem_rotate]
      rw [List.getD_eq_getElem _ _ (by rw [hL]; exact Nat.mod_lt _ (by omega))]
      rfl
    rw [cycleCost, cycleCost, hlen, hL]
    rw [show t.length + 1 = t.length + 1 from rfl]
    calc Finset.sum (Finset.range (t.length + 1))
          (fun i => distance (((c :: t).rotate 1).getD i ⟨0, 0, 0⟩)
            (((c :: t).rotate 1).getD ((i + 1) % (t.length + 1)) ⟨0, 0, 0⟩))
        = Finset.sum (Finset.range (t.length + 1))
            (fun i => distance ((c :: t).getD ((i + 1) % (t.length + 1)) ⟨0, 0, 0⟩)
              ((c :: t).getD (((i + 1) % (t.length + 1) + 1) % (t.length + 1)) ⟨0, 0, 0⟩)) := by
          refine Finset.sum_congr rfl ?_
          intro i hi
          simp only [Finset.mem_range] at hi
          rw [hrot i hi, hrot ((i + 1) % (t.length + 1)) (Nat.mod_lt _ (by omega)),
            Nat.mod_add_mod]
      _ = Finset.sum (Finset.range (t.length + 1))
            (fun i => distance ((c :: t).getD i ⟨0, 0, 0⟩)
              ((c :: t).getD ((i + 1) % (t.length + 1)) ⟨0, 0, 0⟩)) :=
          sum_range_cyclic
            (fun j => distance ((c :: t).getD j ⟨0, 0, 0⟩)
              ((c :: t).getD ((j + 1) % (t.length + 1)) ⟨0, 0, 0⟩)) t.length

theorem cycleCost_rotate (cs : List City) (m : ℕ) : cycleCost (cs.rotate m) = cycleCost cs := by
  induction m with
  | zero => rw [List.rotate_zero]
  | succ m ih =>
      have h : cs.rotate (m + 1) = (cs.rotate m).rotate 1 := by
        rw [List.rotate_rotate]
      rw [h, cycleCost_rotate_one, ih]

theorem calculatePathDistance_eq_tourEdges (cities : List City) (path : List ℕ)
    (h2 : 2 ≤ cities.length) (hp : 1 ≤ path.length) :
    calculatePathDistance cities path = (tourEdges cities path).sum := by
  rw [calculatePathDistance,
    if_neg (by omega : ¬(cities.length < 2 ∨ path.length = 0))]
  simp only []
  rw [foldl_add_eq_sum]
  rw [tourEdges, List.sum_cons, List.sum_append, List.sum_cons, List.sum_nil]
  ring

theorem tourEdges_eq_cycleCost (cities : List City) (path : List ℕ)
    (hp : 1 ≤ path.length) :
    cycleCost (cityAt cities 0 :: path.map (cityAt cities)) = (tourEdges cities path).sum := by
  obtain ⟨q, hq⟩ : ∃ q, path.length = q + 1 := ⟨path.length - 1, by omega⟩
  have hL : (cityAt cities 0 :: path.map (cityAt cities)).length = q + 2 := by
    simp [hq]
  have hget0 : (cityAt cities 0 :: path.map (cityAt cities)).getD 0 ⟨0, 0, 0⟩ =
      cityAt cities 0 := rfl
  have hgets : ∀ i, i < path.length →
      (cityAt cities 0 :: path.map (cityAt cities)).getD (i + 1) ⟨0, 0, 0⟩ =
        cityAt cities (path.getD i 0) := by
    intro i hi
    rw [List.getD_cons_succ, getD_map_of_lt _ _ _ hi]
  rw [cycleCost, hL]
  rw [Finset.sum_range_succ', Finset.sum_range_succ]
  rw [tourEdges, List.sum_cons, List.sum_append, List.sum_cons, List.sum_nil]
  have hmid : Finset.sum (Finset.range q)
      (fun i => distance
        ((cityAt cities 0 :: path.map (cityAt cities)).getD (i + 1) ⟨0, 0, 0⟩)
        ((cityAt cities 0 :: path.map (cityAt cities)).getD ((i + 1 + 1) % (q + 2)) ⟨0, 0, 0⟩)) =
      ((List.range (path.length - 1)).map (fun i =>
        distance (cityAt cities (path.getD i 0)) (cityAt cities (path.getD (i + 1) 0)))).sum := by
    rw [map_range_sum]
    rw [show path.length - 1 = q from by omega]
    refine Finset.sum_congr rfl ?_
    intro i hi
    simp only [Finset.mem_range] at hi
    rw [Nat.mod_eq_of_lt (by omega : i + 1 + 1 < q + 2)]
    rw [hgets i (by omega), hgets (i + 1) (by omega)]
  have hlast : distance
      ((cityAt cities 0 :: path.map (cityAt cities)).getD (q + 1) ⟨0, 0, 0⟩)
      ((cityAt cities 0 :: path.map (cityAt cities)).getD ((q + 1 + 1) % (q + 2)) ⟨0, 0, 0⟩) =
      distance (cityAt cities (path.getD (path.length - 1) 0)) (cityAt cities 0) := by
    rw [Nat.mod_self, hget0, hgets q (by omega), show path.length - 1 = q from by omega]
  have hfirst : distance
      ((cityAt cities 0 :: path.map (cityAt cities)).getD 0 ⟨0, 0, 0⟩)
      ((cityAt cities 0 :: path.map (cityAt cities)).getD (1 % (q + 2)) ⟨0, 0, 0⟩) =
      distance (cityAt cities 0) (cityAt cities (path.getD 0 0)) := by
    rw [Nat.mod_eq_of_lt (by omega : 1 < q + 2), hget0, hgets 0 (by omega)]
  rw [hmid, hlast, hfirst]
  ring

/-- C4: for at least two cities and a permutation tour of the remaining
indices, the tour cost computed by calculatePathDistance is the sum of
exactly k non-negative edge lengths (k the number of cities), equals the
closed-cycle cost of the city cycle it traverses, and that closed-cycle
cost is invariant under cyclic rotation. -/
theorem tour_cost_edges_and_rotation (cities : List City) (path : List ℕ)
    (h2 : 2 ≤ cities.length)
    (hperm : path.Perm (List.range' 1 (cities.length - 1))) :
    calculatePathDistance cities path = (tourEdges cities path).sum ∧
    (tourEdges cities path).length = cities.length ∧
    (∀ e ∈ tourEdges cities path, 0 ≤ e) ∧
    calculatePathDistance cities path =
      cycleCost (cityAt cities 0 :: path.map (cityAt cities)) ∧
    (∀ (cs : List City) (m : ℕ), cycleCost (cs.rotate m) = cycleCost cs) := by
  have hlen : path.length = cities.length - 1 := by
    have h := hperm.length_eq
    simpa [List.length_range'] using h
  have hp : 1 ≤ path.length := by omega
  refine ⟨calculatePathDistance_eq_tourEdges cities path h2 hp, ?_, ?_, ?_,
    fun cs m => cycleCost_rotate cs m⟩
  · simp [tourEdges]
    omega
  · intro e he
    simp only [tourEdges, List.mem_cons, List.mem_append, List.mem_map] at he
    rcases he with rfl | ⟨i, _, rfl⟩ | rfl | h
    · exact distance_nonneg _ _
    · exact distance_nonneg _ _
    · exact distance_nonneg _ _
    · exact absurd h (List.not_mem_nil _)
  · rw [calculatePathDistance_eq_tourEdges cities path h2 hp,
      tourEdges_eq_cycleCost cities path hp]

/-- Witness for C4 on three concrete cities and the identity tour. -/
theorem tour_cost_edges_and_rotation_witness :
    calculatePathDistance cities3 [1, 2] = (tourEdges cities3 [1, 2]).sum ∧
    (tourEdges cities3 [1, 2]).length = cities3.length ∧
    (∀ e ∈ tourEdges cities3 [1, 2], 0 ≤ e) ∧
    calculatePathDistance cities3 [1, 2] =
      cycleCost (cityAt cities3 0 :: [1, 2].map (cityAt cities3)) ∧
    (∀ (cs : List City) (m : ℕ), cycleCost (cs.rotate m) = cycleCost cs) :=
  tour_cost_edges_and_rotation cities3 [1, 2] (by decide) (by decide)

theorem toyLoop_succ_back (params : ToySimulationParams) :
    ∀ (fuel i : ℕ) (ls : ToyLoopState) (g : ℕ → ℝ),
      toyLoop params i (fuel + 1) ls g =
        toyLoopBody params (i + fuel) (toyLoop params i fuel ls g).1
          (toyLoop params i fuel ls g).2 := by
  intro fuel
  induction fuel with
  | zero => intro i ls g; simp [toyLoop]
  | succ fuel ih =>
      intro i ls g
      rw [toyLoop, ih (i + 1)]
      rw [show i + 1 + fuel = i + (fuel + 1) from by omega]
      rfl

theorem toyLoopBody_history (params : ToySimulationParams) (i : ℕ) (ls : ToyLoopState)
    (g : ℕ → ℝ) :
    ∃ entry, (toyLoopBody params i ls g).1.history = ls.history ++ [entry] := by
  simp only [toyLoopBody]
  exact ⟨_, rfl⟩

theorem toyLoop_history_extends (params : ToySimulationParams) :
    ∀ (fuel i : ℕ) (ls : ToyLoopState) (g : ℕ → ℝ),
      ∃ ext, (toyLoop params i fuel ls g).1.history = ls.history ++ ext := by
  intro fuel
  induction fuel with
  | zero => intro i ls g; exact ⟨[], by simp [toyLoop]⟩
  | succ fuel ih =>
      intro i ls g
      rw [toyLoop]
      obtain ⟨entry, hb⟩ := toyLoopBody_history params i ls g
      obtain ⟨ext, he⟩ := ih (i + 1) (toyLoopBody params i ls g).1 (toyLoopBody params i ls g).2
      exact ⟨entry :: ext, by rw [he, hb, List.append_assoc]; rfl⟩

theorem toyLoop_history_length (params : ToySimulationParams) :
    ∀ (fuel i : ℕ) (ls : ToyLoopState) (g : ℕ → ℝ),
      (toyLoop params i fuel ls g).1.history.length = ls.history.length + fuel := by
  intro fuel
  induction fuel with
  | zero => intro i ls g; rfl
  | succ fuel ih =>
      intro i ls g
      rw [toyLoop, ih]
      obtain ⟨entry, hb⟩ := toyLoopBody_history params i ls g
      rw [hb]
      simp
      omega

theorem toyLoop_add (params : ToySimulationParams) :
    ∀ (a b i : ℕ) (ls : ToyLoopState) (g : ℕ → ℝ),
      toyLoop params i (a + b) ls g =
        toyLoop params (i + a) b (toyLoop params i a ls g).1 (toyLoop params i a ls g).2 := by
  intro a
  induction a with
  | zero => intro b i ls g; simp [toyLoop]
  | succ a ih =>
      intro b i ls g
      rw [show a + 1 + b = (a + b) + 1 from by omega]
      rw [toyLoop, toyLoop, ih b (i + 1)]
      rw [show i + 1 + a = i + (a + 1) from by omega]

/-- One non-terminal single step from a snapshot that agrees with a loop
state computes exactly one body of the batch loop. -/
theorem toyStep_matches_body (s : SimulatedAnnealingToyState) (ls : ToyLoopState)
    (params : ToySimulationParams) (g : ℕ → ℝ) (k : ℕ)
    (h1 : s.history = ls.history) (h2 : s.currentState = ls.currentState)
    (h3 : s.currentValue = ls.currentValue) (h4 : s.bestState = ls.bestState)
    (h5 : s.bestValue = ls.bestValue) (h6 : s.acceptedWorse = ls.acceptedWorse)
    (h7 : s.currentIteration = k) (h8 : s.isComplete = false)
    (h9 : ¬params.maxIterations ≤ k) :
    (runSingleIteration s params g).1.history = (toyLoopBody params (k + 1) ls g).1.history ∧
    (runSingleIteration s params g).1.currentState =
      (toyLoopBody params (k + 1) ls g).1.currentState ∧
    (runSingleIteration s params g).1.currentValue =
      (toyLoopBody params (k + 1) ls g).1.currentValue ∧
    (runSingleIteration s params g).1.bestState =
      (toyLoopBody params (k + 1) ls g).1.bestState ∧
    (runSingleIteration s params g).1.bestValue =
      (toyLoopBody params (k + 1) ls g).1.bestValue ∧
    (runSingleIteration s params g).1.acceptedWorse =
      (toyLoopBody params (k + 1) ls g).1.acceptedWorse ∧
    (runSingleIteration s params g).1.currentIteration = k + 1 ∧
    (runSingleIteration s params g).1.searchSpace = s.searchSpace ∧
    (runSingleIteration s params g).1.isComplete =
      decide (params.maxIterations ≤ k + 1) ∧
    (runSingleIteration s params g).2 = (toyLoopBody params (k + 1) ls g).2 := by
  have hcond : ¬(params.maxIterations ≤ s.currentIteration ∨ s.isComplete = true) := by
    rw [h7, h8]
    simp [h9]
  rw [runSingleIteration, if_neg hcond]
  simp [toyLoopBody, h1, h2, h3, h4, h5, h6, h7]

/-- Stepping k times from initialization tracks the first k iterations of
the batch loop in every loop-carried field, in the iteration counter, the
terminal flag and the remaining draw stream. -/
theorem toyStepN_matches_loop (params : ToySimulationParams) (g : ℕ → ℝ)
    (hr : params.r ≠ 0) :
    ∀ k, k ≤ params.maxIterations →
    (toyStepN params k (initializeToySimulation params g)).1.history =
      (toyLoop params 1 k (toyInitLS params g) (fun j => g (j + 1))).1.history ∧
    (toyStepN params k (initializeToySimulation params g)).1.currentState =
      (toyLoop params 1 k (toyInitLS params g) (fun j => g (j + 1))).1.currentState ∧
    (toyStepN params k (initializeToySimulation params g)).1.currentValue =
      (toyLoop params 1 k (toyInitLS params g) (fun j => g (j + 1))).1.currentValue ∧
    (toyStepN params k (initializeToySimulation params g)).1.bestState =
      (toyLoop params 1 k (toyInitLS params g) (fun j => g (j + 1))).1.bestState ∧
    (toyStepN params k (initializeToySimulation params g)).1.bestValue =
      (toyLoop params 1 k (toyInitLS params g) (fun j => g (j + 1))).1.bestValue ∧
    (toyStepN params k (initializeToySimulation params g)).1.acceptedWorse =
      (toyLoop params 1 k (toyInitLS params g) (fun j => g (j + 1))).1.acceptedWorse ∧
    (toyStepN params k (initializeToySimulation params g)).1.currentIteration = k ∧
    (toyStepN params k (initializeToySimulation params g)).1.searchSpace =
      toySearchSpace params.r params.coefficients ∧
    (toyStepN params k (initializeToySimulation params g)).1.isComplete =
      decide (params.maxIterations ≤ k ∧ 0 < k) ∧
    (toyStepN params k (initializeToySimulation params g)).2 =
      (toyLoop params 1 k (toyInitLS params g) (fun j => g (j + 1))).2 := by
  intro k
  induction k with
  | zero =>
      intro _
      rw [show toyStepN params 0 (initializeToySimulation params g) =
        initializeToySimulation params g from rfl]
      rw [initializeToySimulation, if_neg hr]
      exact ⟨rfl, rfl, rfl, rfl, rfl, rfl, rfl, rfl, by simp, rfl⟩
  | succ k ih =>
      intro hk1
      obtain ⟨e1, e2, e3, e4, e5, e6, e7, e8, e9, e10⟩ := ih (by omega)
      have hcompl : (toyStepN params k (initializeToySimulation params g)).1.isComplete =
          false := by
        rw [e9]
        simp only [decide_eq_false_iff_not]
        omega
      have hm := toyStep_matches_body
        (toyStepN params k (initializeToySimulation params g)).1
        (toyLoop params 1 k (toyInitLS params g) (fun j => g (j + 1))).1
        params
        (toyStepN params k (initializeToySimulation params g)).2
        k e1 e2 e3 e4 e5 e6 e7 hcompl (by omega)
      have hstep : toyStepN params (k + 1) (initializeToySimulation params g) =
          runSingleIteration (toyStepN params k (initializeToySimulation params g)).1
            params (toyStepN params k (initializeToySimulation params g)).2 := rfl
      have hloop : toyLoop params 1 (k + 1) (toyInitLS params g) (fun j => g (j + 1)) =
          toyLoopBody params (k + 1)
            (toyLoop params 1 k (toyInitLS params g) (fun j => g (j + 1))).1
            (toyLoop params 1 k (toyInitLS params g) (fun j => g (j + 1))).2 := by
        rw [toyLoop_succ_back]
        rw [show 1 + k = k + 1 from by omega]
      rw [hstep, hloop]
      rw [← e10]
      refine ⟨hm.1, hm.2.1, hm.2.2.1, hm.2.2.2.1, hm.2.2.2.2.1, hm.2.2.2.2.2.1,
        hm.2.2.2.2.2.2.1, ?_, ?_, hm.2.2.2.2.2.2.2.2.2⟩
      · rw [hm.2.2.2.2.2.2.2.1, e8]
      · rw [hm.2.2.2.2.2.2.2.2.1]
        simp only [decide_eq_decide]
        omega

/-- C2: for the bitstring variant with positive bit width and a fixed
draw stream, stepping k times with runSingleIteration from the state
produced by initializeToySimulation reproduces runToySimulation truncated
at iteration k.  The truncation is the same loop stopped after k
iterations (toyLoop params 1 k from the shared pre-loop state), against
which every loop-carried field and the iteration counter are compared;
the history prefix is additionally compared against the completed batch
run itself, and the remaining draw streams coincide, so both consume the
same draws in the same order. -/
theorem toy_step_batch_equivalence (params : ToySimulationParams) (g : ℕ → ℝ) (k : ℕ)
    (hr : 1 ≤ params.r) (hk : k ≤ params.maxIterations) :
    (toyStepN params k (initializeToySimulation params g)).1.history =
      (runToySimulation params g).history.take (k + 1) ∧
    (toyStepN params k (initializeToySimulation params g)).1.history =
      (toyLoop params 1 k (toyInitLS params g) (fun j => g (j + 1))).1.history ∧
    (toyStepN params k (initializeToySimulation params g)).1.currentState =
      (toyLoop params 1 k (toyInitLS params g) (fun j => g (j + 1))).1.currentState ∧
    (toyStepN params k (initializeToySimulation params g)).1.currentValue =
      (toyLoop params 1 k (toyInitLS params g) (fun j => g (j + 1))).1.currentValue ∧
    (toyStepN params k (initializeToySimulation params g)).1.bestState =
      (toyLoop params 1 k (toyInitLS params g) (fun j => g (j + 1))).1.bestState ∧
    (toyStepN params k (initializeToySimulation params g)).1.bestValue =
      (toyLoop params 1 k (toyInitLS params g) (fun j => g (j + 1))).1.bestValue ∧
    (toyStepN params k (initializeToySimulation params g)).1.acceptedWorse =
      (toyLoop params 1 k (toyInitLS params g) (fun j => g (j + 1))).1.acceptedWorse ∧
    (toyStepN params k (initializeToySimulation params g)).1.currentIteration = k ∧
    (toyStepN params k (initializeToySimulation params g)).2 =
      (toyLoop params 1 k (toyInitLS params g) (fun j => g (j + 1))).2 := by
  have hr0 : params.r ≠ 0 := by omega
  obtain ⟨e1, e2, e3, e4, e5, e6, e7, e8, e9, e10⟩ :=
    toyStepN_matches_loop params g hr0 k hk
  have hfull : (runToySimulation params g).history =
      (toyLoop params 1 params.maxIterations (toyInitLS params g)
        (fun j => g (j + 1))).1.history := by
    rw [runToySimulation, if_neg hr0]
  have hdecomp := toyLoop_add params k (params.maxIterations - k) 1
    (toyInitLS params g) (fun j => g (j + 1))
  rw [show k + (params.maxIterations - k) = params.maxIterations from by omega] at hdecomp
  obtain ⟨ext, hext⟩ := toyLoop_history_extends params (params.maxIterations - k) (1 + k)
    (toyLoop params 1 k (toyInitLS params g) (fun j => g (j + 1))).1
    (toyLoop params 1 k (toyInitLS params g) (fun j => g (j + 1))).2
  have hklen : (toyLoop params 1 k (toyInitLS params g)
      (fun j => g (j + 1))).1.history.length = k + 1 := by
    rw [toyLoop_history_length]
    simp [toyInitLS]
    omega
  have htake : (runToySimulation params g).history.take (k + 1) =
      (toyLoop params 1 k (toyInitLS params g) (fun j => g (j + 1))).1.history := by
    rw [hfull, hdecomp, hext, ← hklen, List.take_left]
  exact ⟨by rw [htake, e1], e1, e2, e3, e4, e5, e6, e7, e10⟩

/-- Witness for C2 with a one-iteration run at bit width one. -/
theorem toy_step_batch_equivalence_witness :
    (toyStepN toyParams1 1 (initializeToySimulation toyParams1 (fun _ => 0))).1.history =
      (runToySimulation toyParams1 (fun _ => 0)).history.take 2 ∧
    (toyStepN toyParams1 1 (initializeToySimulation toyParams1 (fun _ => 0))).1.history =
      (toyLoop toyParams1 1 1 (toyInitLS toyParams1 (fun _ => 0)) (fun _ => (0 : ℝ))).1.history ∧
    (toyStepN toyParams1 1 (initializeToySimulation toyParams1 (fun _ => 0))).1.currentState =
      (toyLoop toyParams1 1 1 (toyInitLS toyParams1 (fun _ => 0)) (fun _ => (0 : ℝ))).1.currentState ∧
    (toyStepN toyParams1 1 (initializeToySimulation toyParams1 (fun _ => 0))).1.currentValue =
      (toyLoop toyParams1 1 1 (toyInitLS toyParams1 (fun _ => 0)) (fun _ => (0 : ℝ))).1.currentValue ∧
    (toyStepN toyParams1 1 (initializeToySimulation toyParams1 (fun _ => 0))).1.bestState =
      (toyLoop toyParams1 1 1 (toyInitLS toyParams1 (fun _ => 0)) (fun _ => (0 : ℝ))).1.bestState ∧
    (toyStepN toyParams1 1 (initializeToySimulation toyParams1 (fun _ => 0))).1.bestValue =
      (toyLoop toyParams1 1 1 (toyInitLS toyParams1 (fun _ => 0)) (fun _ => (0 : ℝ))).1.bestValue ∧
    (toyStepN toyParams1 1 (initializeToySimulation toyParams1 (fun _ => 0))).1.acceptedWorse =
      (toyLoop toyParams1 1 1 (toyInitLS toyParams1 (fun _ => 0)) (fun _ => (0 : ℝ))).1.acceptedWorse ∧
    (toyStepN toyParams1 1 (initializeToySimulation toyParams1 (fun _ => 0))).1.currentIteration = 1 ∧
    (toyStepN toyParams1 1 (initializeToySimulation toyParams1 (fun _ => 0))).2 =
      (toyLoop toyParams1 1 1 (toyInitLS toyParams1 (fun _ => 0)) (fun _ => (0 : ℝ))).2 :=
  toy_step_batch_equivalence toyParams1 (fun _ => 0) 1 (by decide) (by decide)

theorem getD_set_eq {α : Type} (l : List α) (i : ℕ) (v d : α) (h : i < l.length) :
    (l.set i v).getD i d = v := by
  rw [List.getD_eq_getElem _ _ (by simpa using h)]
  exact List.getElem_set_self _

theorem getD_set_ne {α : Type} (l : List α) {i j : ℕ} (v d : α) (h : i ≠ j) :
    (l.set i v).getD j d = l.getD j d := by
  by_cases hj : j < l.length
  · rw [List.getD_eq_getElem _ _ (by simpa using hj), List.getD_eq_getElem _ _ hj]
    exact List.getElem_set_ne h _
  · rw [List.getD_eq_default _ _ (by simp; omega), List.getD_eq_default _ _ (by omega)]

theorem sum_le_length_of_lt_one :
    ∀ l : List ℚ, (∀ x ∈ l, x < 1) → l.sum ≤ (l.length : ℚ) := by
  intro l
  induction l with
  | nil => simp
  | cons a t ih =>
      intro h
      have ht := ih (fun x hx => h x (by simp [hx]))
      have ha := h a (by simp)
      simp only [List.sum_cons, List.length_cons]
      push_cast
      linarith

theorem sum_lt_length_of_lt_one (a : ℚ) (t : List ℚ)
    (h : ∀ x ∈ a :: t, x < 1) : (a :: t).sum < ((a :: t).length : ℚ) := by
  have ht := sum_le_length_of_lt_one t (fun x hx => h x (by simp [hx]))
  have ha := h a (by simp)
  simp only [List.sum_cons, List.length_cons]
  push_cast
  linarith

theorem length_le_sum_of_one_le :
    ∀ l : List ℚ, (∀ x ∈ l, 1 ≤ x) → (l.length : ℚ) ≤ l.sum := by
  intro l
  induction l with
  | nil => simp
  | cons a t ih =>
      intro h
      have ht := ih (fun x hx => h x (by simp [hx]))
      have ha := h a (by simp)
      simp only [List.sum_cons, List.length_cons]
      push_cast
      linarith

theorem all_eq_one_of_sum_eq_length :
    ∀ l : List ℚ, (∀ x ∈ l, 1 ≤ x) → l.sum = (l.length : ℚ) → ∀ x ∈ l, x = 1 := by
  intro l
  induction l with
  | nil => intro _ _ x hx; simp at hx
  | cons a t ih =>
      intro h1 h2 x hx
      have ha := h1 a (by simp)
      have ht := length_le_sum_of_one_le t (fun y hy => h1 y (by simp [hy]))
      simp only [List.sum_cons, List.length_cons] at h2
      push_cast at h2
      have ha1 : a = 1 := by linarith
      have ht1 : t.sum = (t.length : ℚ) := by linarith
      rcases List.mem_cons.mp hx with rfl | hxt
      · exact ha1
      · exact ih (fun y hy => h1 y (by simp [hy])) ht1 x hxt

theorem foldl_set_one_length :
    ∀ (L : List ℕ) (pt : List ℚ),
      (L.foldl (fun acc l => acc.set l 1) pt).length = pt.length := by
  intro L
  induction L with
  | nil => intro pt; rfl
  | cons a t ih => intro pt; rw [List.foldl_cons, ih, List.length_set]

theorem foldl_set_one_getD :
    ∀ (L : List ℕ) (pt : List ℚ) (i : ℕ), (∀ j ∈ L, j < pt.length) →
      (L.foldl (fun acc l => acc.set l 1) pt).getD i 0 =
        if i ∈ L then 1 else pt.getD i 0 := by
  intro L
  induction L with
  | nil => intro pt i _; simp
  | cons a t ih =>
      intro pt i hj
      rw [List.foldl_cons,
        ih _ i (fun j hjt => by rw [List.length_set]; exact hj j (by simp [hjt]))]
      by_cases hit : i ∈ t
      · simp [hit]
      · by_cases hia : i = a
        · subst hia
          rw [if_neg hit, getD_set_eq _ _ _ _ (hj i (by simp))]
          simp
        · rw [if_neg hit, getD_set_ne _ _ _ (fun h => hia h.symm)]
          simp [hia, hit]

/-- The terminal case of the alias-table while loop: when the small
worklist is empty, exact arithmetic forces every leftover large index to
carry scaled weight exactly one, so setting its probability entry to one
preserves both the bounds and the expectation bookkeeping. -/
theorem aliasLoop_finish_spec (n : ℕ) (large : List ℕ) (scaled probT : List ℚ)
    (aliasT : List ℕ)
    (hplen : probT.length = n) (halen : aliasT.length = n)
    (hmem : ∀ i ∈ large, i < n)
    (hlc : ∀ i ∈ large, 1 ≤ scaled.getD i 0)
    (hdone : ∀ i < n, i ∉ large → 0 ≤ probT.getD i 0 ∧ probT.getD i 0 < 1)
    (halias : ∀ i < n, aliasT.getD i 0 < n)
    (hsum : (large.map (fun i => scaled.getD i 0)).sum = (large.length : ℚ)) :
    (aliasLoop scaled probT aliasT [] large).1.length = n ∧
    (aliasLoop scaled probT aliasT [] large).2.length = n ∧
    (∀ i < n,
      0 ≤ (aliasLoop scaled probT aliasT [] large).1.getD i 0 ∧
      (aliasLoop scaled probT aliasT [] large).1.getD i 0 ≤ 1 ∧
      (aliasLoop scaled probT aliasT [] large).2.getD i 0 < n) ∧
    (∀ i < n,
      (aliasLoop scaled probT aliasT [] large).1.getD i 0 +
        Finset.sum (Finset.range n) (fun j =>
          if (aliasLoop scaled probT aliasT [] large).2.getD j 0 = i ∧
              (aliasLoop scaled probT aliasT [] large).1.getD j 0 < 1 then
            1 - (aliasLoop scaled probT aliasT [] large).1.getD j 0
          else 0) =
      (if i ∈ large then scaled.getD i 0 else probT.getD i 0) +
        Finset.sum (Finset.range n) (fun j =>
          if j ∉ large ∧ aliasT.getD j 0 = i ∧ probT.getD j 0 < 1 then
            1 - probT.getD j 0
          else 0)) := by
  have hrun : aliasLoop scaled probT aliasT [] large =
      (large.foldl (fun acc l => acc.set l 1) probT, aliasT) := by
    simp only [aliasLoop, aliasFinish, List.foldl_nil]
  have hones : ∀ l ∈ large, scaled.getD l 0 = 1 := by
    intro l hl
    refine all_eq_one_of_sum_eq_length (large.map (fun i => scaled.getD i 0))
      (fun x hx => ?_) (by rw [hsum, List.length_map]) _ (List.mem_map_of_mem _ hl)
    obtain ⟨j, hj, rfl⟩ := List.mem_map.mp hx
    exact hlc j hj
  have hF : ∀ i, (aliasLoop scaled probT aliasT [] large).1.getD i 0 =
      if i ∈ large then 1 else probT.getD i 0 := by
    intro i
    rw [hrun]
    exact foldl_set_one_getD large probT i (fun j hj => by rw [hplen]; exact hmem j hj)
  refine ⟨by rw [hrun]; exact (foldl_set_one_length large probT).trans hplen,
    by rw [hrun]; exact halen, ?_, ?_⟩
  · intro i hi
    rw [hF, hrun]
    by_cases him : i ∈ large
    · rw [if_pos him]
      exact ⟨zero_le_one, le_refl 1, halias i hi⟩
    · rw [if_neg him]
      exact ⟨(hdone i hi him).1, le_of_lt (hdone i hi him).2, halias i hi⟩
  · intro i hi
    have hsum_eq : Finset.sum (Finset.range n) (fun j =>
        if (aliasLoop scaled probT aliasT [] large).2.getD j 0 = i ∧
            (aliasLoop scaled probT aliasT [] large).1.getD j 0 < 1 then
          1 - (aliasLoop scaled probT aliasT [] large).1.getD j 0
        else 0) =
        Finset.sum (Finset.range n) (fun j =>
          if j ∉ large ∧ aliasT.getD j 0 = i ∧ probT.getD j 0 < 1 then
            1 - probT.getD j 0
          else 0) := by
      refine Finset.sum_congr rfl fun j _ => ?_
      rw [hF j, hrun]
      by_cases hjm : j ∈ large
      · rw [if_pos hjm]
        rw [if_neg (by simp), if_neg (by simp [hjm])]
      · rw [if_neg hjm]
        refine if_congr ?_ rfl rfl
        constructor
        · intro ⟨ha, hb⟩; exact ⟨hjm, ha, hb⟩
        · intro ⟨_, ha, hb⟩; exact ⟨ha, hb⟩
    rw [hsum_eq, hF i]
    by_cases him : i ∈ large
    · rw [if_pos him, if_pos him, hones i him]
    · rw [if_neg him, if_neg him]

/-- Main invariant of the alias-table while loop.  The pending indices
(union of both worklists) hold their scaled weight, every processed index
holds a probability below one and an alias below n, and for every target
index the probability entry plus the alias contributions of the processed
indices is conserved. -/
theorem aliasLoop_spec (n : ℕ) :
    ∀ (N : ℕ) (small large : List ℕ) (scaled probT : List ℚ) (aliasT : List ℕ),
    small.length + large.length ≤ N →
    scaled.length = n → probT.length = n → aliasT.length = n →
    (small ++ large).Nodup →
    (∀ i ∈ small ++ large, i < n) →
    (∀ i ∈ small, scaled.getD i 0 < 1) →
    (∀ i ∈ large, 1 ≤ scaled.getD i 0) →
    (∀ i ∈ small ++ large, 0 ≤ scaled.getD i 0) →
    (∀ i < n, i ∉ small ++ large → 0 ≤ probT.getD i 0 ∧ probT.getD i 0 < 1) →
    (∀ i < n, aliasT.getD i 0 < n) →
    ((small ++ large).map (fun i => scaled.getD i 0)).sum = ((small ++ large).length : ℚ) →
    (aliasLoop scaled probT aliasT small large).1.length = n ∧
    (aliasLoop scaled probT aliasT small large).2.length = n ∧
    (∀ i < n,
      0 ≤ (aliasLoop scaled probT aliasT small large).1.getD i 0 ∧
      (aliasLoop scaled probT aliasT small large).1.getD i 0 ≤ 1 ∧
      (aliasLoop scaled probT aliasT small large).2.getD i 0 < n) ∧
    (∀ i < n,
      (aliasLoop scaled probT aliasT small large).1.getD i 0 +
        Finset.sum (Finset.range n) (fun j =>
          if (aliasLoop scaled probT aliasT small large).2.getD j 0 = i ∧
              (aliasLoop scaled probT aliasT small large).1.getD j 0 < 1 then
            1 - (aliasLoop scaled probT aliasT small large).1.getD j 0
          else 0) =
      (if i ∈ small ++ large then scaled.getD i 0 else probT.getD i 0) +
        Finset.sum (Finset.range n) (fun j =>
          if j ∉ small ++ large ∧ aliasT.getD j 0 = i ∧ probT.getD j 0 < 1 then
            1 - probT.getD j 0
          else 0)) := by
  intro N
  induction N with
  | zero =>
      intro small large scaled probT aliasT hN hslen hplen halen hnd hmem hsc hlc hnn
        hdone halias hsum
      have hs0 : small = [] := List.length_eq_zero.mp (by omega)
      subst hs0
      exact aliasLoop_finish_spec n large scaled probT aliasT hplen halen hmem hlc
        hdone halias hsum
  | succ N ih =>
      intro small large scaled probT aliasT hN hslen hplen halen hnd hmem hsc hlc hnn
        hdone halias hsum
      rcases small with _ | ⟨s, small'⟩
      · exact aliasLoop_finish_spec n large scaled probT aliasT hplen halen hmem hlc
          hdone halias hsum
      rcases large with _ | ⟨l, large'⟩
      · exfalso
        have hlt : ((s :: small').map (fun i => scaled.getD i 0)).sum <
            (((s :: small').map (fun i => scaled.getD i 0)).length : ℚ) := by
          rw [List.map_cons]
          refine sum_lt_length_of_lt_one _ _ ?_
          intro x hx
          rcases List.mem_cons.mp hx with rfl | hx2
          · exact hsc s (by simp)
          · obtain ⟨j, hj, rfl⟩ := List.mem_map.mp hx2
            exact hsc j (by simp [hj])
        rw [List.length_map] at hlt
        have hsum' : ((s :: small').map (fun i => scaled.getD i 0)).sum =
            (((s :: small') : List ℕ).length : ℚ) := by simpa using hsum
        rw [hsum'] at hlt
        exact lt_irrefl _ hlt
      -- main loop step
      have hs_lt : s < n := hmem s (by simp)
      have hl_lt : l < n := hmem l (by simp)
      have hnd' := hnd
      rw [List.cons_append, List.nodup_cons] at hnd'
      obtain ⟨hs_not, hnd1⟩ := hnd'
      have hnd2 : (l :: (small' ++ large')).Nodup := List.perm_middle.nodup hnd1
      rw [List.nodup_cons] at hnd2
      obtain ⟨hl_not, hnd3⟩ := hnd2
      have hsl : s ≠ l := fun h => hs_not (by rw [h]; simp)
      have hs_sm : s ∉ small' := fun h => hs_not (by simp [h])
      have hs_lg : s ∉ large' := fun h => hs_not (by simp [h])
      have hl_sm : l ∉ small' := fun h => hl_not (by simp [h])
      have hl_lg : l ∉ large' := fun h => hl_not (by simp [h])
      have hsV1 : scaled.getD s 0 < 1 := hsc s (by simp)
      have hsV0 : 0 ≤ scaled.getD s 0 := hnn s (by simp)
      have hlV1 : 1 ≤ scaled.getD l 0 := hlc l (by simp)
      have hpt2_s : (probT.set s (scaled.getD s 0)).getD s 0 = scaled.getD s 0 :=
        getD_set_eq _ _ _ _ (by rw [hplen]; exact hs_lt)
      have hpt2_ne : ∀ j, j ≠ s →
          (probT.set s (scaled.getD s 0)).getD j 0 = probT.getD j 0 :=
        fun j hj => getD_set_ne _ _ _ (fun h => hj h.symm)
      have hat2_s : (aliasT.set s l).getD s 0 = l :=
        getD_set_eq _ _ _ _ (by rw [halen]; exact hs_lt)
      have hat2_ne : ∀ j, j ≠ s → (aliasT.set s l).getD j 0 = aliasT.getD j 0 :=
        fun j hj => getD_set_ne _ _ _ (fun h => hj h.symm)
      have hsc2_l : (scaled.set l (scaled.getD l 0 - (1 - scaled.getD s 0))).getD l 0 =
          scaled.getD l 0 - (1 - scaled.getD s 0) :=
        getD_set_eq _ _ _ _ (by rw [hslen]; exact hl_lt)
      have hsc2_ne : ∀ j, j ≠ l →
          (scaled.set l (scaled.getD l 0 - (1 - scaled.getD s 0))).getD j 0 =
            scaled.getD j 0 :=
        fun j hj => getD_set_ne _ _ _ (fun h => hj h.symm)
      simp only [List.cons_append, List.map_cons, List.map_append, List.sum_cons,
        List.sum_append, List.length_cons, List.length_append] at hsum
      push_cast at hsum
      have hmap_sm : small'.map (fun i =>
          (scaled.set l (scaled.getD l 0 - (1 - scaled.getD s 0))).getD i 0) =
          small'.map (fun i => scaled.getD i 0) :=
        List.map_congr_left (fun j hj => hsc2_ne j (fun he => hl_sm (he ▸ hj)))
      have hmap_lg : large'.map (fun i =>
          (scaled.set l (scaled.getD l 0 - (1 - scaled.getD s 0))).getD i 0) =
          large'.map (fun i => scaled.getD i 0) :=
        List.map_congr_left (fun j hj => hsc2_ne j (fun he => hl_lg (he ▸ hj)))
      simp only [aliasLoop]
      split
      · -- the reduced index goes back to the small worklist
        rename_i hbr
        have hihA := ih (l :: small') large'
          (scaled.set l (scaled.getD l 0 - (1 - scaled.getD s 0)))
          (probT.set s (scaled.getD s 0)) (aliasT.set s l)
          (by simp only [List.length_cons] at hN ⊢; omega)
          (by rw [List.length_set]; exact hslen)
          (by rw [List.length_set]; exact hplen)
          (by rw [List.length_set]; exact halen)
          (List.nodup_cons.mpr ⟨hl_not, hnd3⟩)
          (by
            intro i hi
            simp only [List.cons_append, List.mem_cons, List.mem_append] at hi
            rcases hi with rfl | h | h
            · exact hl_lt
            · exact hmem i (by simp [h])
            · exact hmem i (by simp [h]))
          (by
            intro i hi
            rcases List.mem_cons.mp hi with rfl | h
            · exact hbr
            · rw [hsc2_ne i (fun he => hl_sm (he ▸ h))]
              exact hsc i (by simp [h]))
          (by
            intro i hi
            rw [hsc2_ne i (fun he => hl_lg (he ▸ hi))]
            exact hlc i (by simp [hi]))
          (by
            intro i hi
            simp only [List.cons_append, List.mem_cons, List.mem_append] at hi
            rcases hi with rfl | h | h
            · rw [hsc2_l]; linarith
            · rw [hsc2_ne i (fun he => hl_sm (he ▸ h))]; exact hnn i (by simp [h])
            · rw [hsc2_ne i (fun he => hl_lg (he ▸ h))]; exact hnn i (by simp [h]))
          (by
            intro i hi hni
            by_cases his : i = s
            · subst his; rw [hpt2_s]; exact ⟨hsV0, hsV1⟩
            · rw [hpt2_ne i his]
              refine hdone i hi ?_
              intro hmem_orig
              simp only [List.cons_append, List.mem_cons, List.mem_append] at hmem_orig hni
              tauto)
          (by
            intro i hi
            by_cases his : i = s
            · subst his; rw [hat2_s]; exact hl_lt
            · rw [hat2_ne i his]; exact halias i hi)
          (by
            simp only [List.cons_append, List.map_cons, List.map_append, List.sum_cons,
              List.sum_append, List.length_cons, List.length_append, hsc2_l,
              hmap_sm, hmap_lg]
            push_cast
            linarith)
        obtain ⟨c1, c2, c3, c4⟩ := hihA
        refine ⟨c1, c2, c3, ?_⟩
        intro i hi
        rw [c4 i hi]
        have hs_in : s ∈ Finset.range n := Finset.mem_range.mpr hs_lt
        have hs_notA : s ∉ (l :: small') ++ large' := by
          simp only [List.cons_append, List.mem_cons, List.mem_append]
          push_neg
          exact ⟨hsl, hs_sm, hs_lg⟩
        have herase : Finset.sum ((Finset.range n).erase s) (fun j =>
            if j ∉ (l :: small') ++ large' ∧ (aliasT.set s l).getD j 0 = i ∧
                (probT.set s (scaled.getD s 0)).getD j 0 < 1 then
              1 - (probT.set s (scaled.getD s 0)).getD j 0
            else 0) =
            Finset.sum ((Finset.range n).erase s) (fun j =>
              if j ∉ (s :: small') ++ (l :: large') ∧ aliasT.getD j 0 = i ∧
                  probT.getD j 0 < 1 then
                1 - probT.getD j 0
              else 0) := by
          refine Finset.sum_congr rfl fun j hj => ?_
          have hjs : j ≠ s := (Finset.mem_erase.mp hj).1
          rw [hat2_ne j hjs, hpt2_ne j hjs]
          refine if_congr ?_ rfl rfl
          simp only [List.cons_append, List.mem_cons, List.mem_append]
          constructor
          · rintro ⟨h1, h2, h3⟩; exact ⟨by tauto, h2, h3⟩
          · rintro ⟨h1, h2, h3⟩; exact ⟨by tauto, h2, h3⟩
        have hsum_mid : Finset.sum (Finset.range n) (fun j =>
            if j ∉ (l :: small') ++ large' ∧ (aliasT.set s l).getD j 0 = i ∧
                (probT.set s (scaled.getD s 0)).getD j 0 < 1 then
              1 - (probT.set s (scaled.getD s 0)).getD j 0
            else 0) =
            Finset.sum (Finset.range n) (fun j =>
              if j ∉ (s :: small') ++ (l :: large') ∧ aliasT.getD j 0 = i ∧
                  probT.getD j 0 < 1 then
                1 - probT.getD j 0
              else 0) + (if l = i then 1 - scaled.getD s 0 else 0) := by
          rw [← Finset.add_sum_erase _ _ hs_in, herase]
          rw [← Finset.add_sum_erase (Finset.range n) (fun j =>
            if j ∉ (s :: small') ++ (l :: large') ∧ aliasT.getD j 0 = i ∧
                probT.getD j 0 < 1 then
              1 - probT.getD j 0
            else 0) hs_in]
          have hforig : (if s ∉ (s :: small') ++ (l :: large') ∧ aliasT.getD s 0 = i ∧
              probT.getD s 0 < 1 then 1 - probT.getD s 0 else 0) = 0 :=
            if_neg (fun hcase => hcase.1 (by simp))
          rw [hforig]
          simp only [hat2_s, hpt2_s]
          by_cases hli : l = i
          · rw [if_pos ⟨hs_notA, hli, hsV1⟩, if_pos hli]
            ring
          · rw [if_neg (fun hcase => hli hcase.2.1), if_neg hli]
            ring
        rw [hsum_mid]
        by_cases his : i = s
        · have hm1 : i ∉ (l :: small') ++ large' := by rw [his]; exact hs_notA
          have hm2 : i ∈ (s :: small') ++ (l :: large') := by rw [his]; simp
          have hm3 : l ≠ i := by rw [his]; exact fun h => hsl h.symm
          rw [if_neg hm1, if_pos hm2, if_neg hm3, his, hpt2_s]
          ring
        · by_cases hil : i = l
          · have hm1 : i ∈ (l :: small') ++ large' := by rw [hil]; simp
            have hm2 : i ∈ (s :: small') ++ (l :: large') := by rw [hil]; simp
            rw [if_pos hm1, if_pos hm2, if_pos hil.symm, hil, hsc2_l]
            ring
          · have hmem_iff : (i ∈ (l :: small') ++ large') ↔
                (i ∈ (s :: small') ++ (l :: large')) := by
              simp only [List.cons_append, List.mem_cons, List.mem_append]
              constructor <;> intro h <;> tauto
            rw [if_neg (fun h : l = i => hil h.symm)]
            by_cases him : i ∈ (l :: small') ++ large'
            · rw [if_pos him, if_pos (hmem_iff.mp him), hsc2_ne i hil]
              ring
            · rw [if_neg him, if_neg (fun h => him (hmem_iff.mpr h)), hpt2_ne i his]
              ring
      · -- the reduced index stays in the large worklist
        rename_i hbr
        have hbr' : 1 ≤ (scaled.set l (scaled.getD l 0 - (1 - scaled.getD s 0))).getD l 0 :=
          not_lt.mp hbr
        have hihB := ih small' (l :: large')
          (scaled.set l (scaled.getD l 0 - (1 - scaled.getD s 0)))
          (probT.set s (scaled.getD s 0)) (aliasT.set s l)
          (by simp only [List.length_cons] at hN ⊢; omega)
          (by rw [List.length_set]; exact hslen)
          (by rw [List.length_set]; exact hplen)
          (by rw [List.length_set]; exact halen)
          hnd1
          (by
            intro i hi
            simp only [List.mem_cons, List.mem_append] at hi
            rcases hi with h | rfl | h
            · exact hmem i (by simp [h])
            · exact hl_lt
            · exact hmem i (by simp [h]))
          (by
            intro i hi
            rw [hsc2_ne i (fun he => hl_sm (he ▸ hi))]
            exact hsc i (by simp [hi]))
          (by
            intro i hi
            rcases List.mem_cons.mp hi with rfl | h
            · exact hbr'
            · rw [hsc2_ne i (fun he => hl_lg (he ▸ h))]
              exact hlc i (by simp [h]))
          (by
            intro i hi
            simp only [List.mem_cons, List.mem_append] at hi
            rcases hi with h | rfl | h
            · rw [hsc2_ne i (fun he => hl_sm (he ▸ h))]; exact hnn i (by simp [h])
            · rw [hsc2_l]; linarith
            · rw [hsc2_ne i (fun he => hl_lg (he ▸ h))]; exact hnn i (by simp [h]))
          (by
            intro i hi hni
            by_cases his : i = s
            · subst his; rw [hpt2_s]; exact ⟨hsV0, hsV1⟩
            · rw [hpt2_ne i his]
              refine hdone i hi ?_
              intro hmem_orig
              simp only [List.cons_append, List.mem_cons, List.mem_append] at hmem_orig hni
              tauto)
          (by
            intro i hi
            by_cases his : i = s
            · subst his; rw [hat2_s]; exact hl_lt
            · rw [hat2_ne i his]; exact halias i hi)
          (by
            simp only [List.map_cons, List.map_append, List.sum_cons,
              List.sum_append, List.length_cons, List.length_append, hsc2_l,
              hmap_sm, hmap_lg]
            push_cast
            linarith)
        obtain ⟨c1, c2, c3, c4⟩ := hihB
        refine ⟨c1, c2, c3, ?_⟩
        intro i hi
        rw [c4 i hi]
        have hs_in : s ∈ Finset.range n := Finset.mem_range.mpr hs_lt
        have hs_notB : s ∉ small' ++ (l :: large') := by
          simp only [List.mem_cons, List.mem_append]
          push_neg
          exact ⟨hs_sm, hsl, hs_lg⟩
        have herase : Finset.sum ((Finset.range n).erase s) (fun j =>
            if j ∉ small' ++ (l :: large') ∧ (aliasT.set s l).getD j 0 = i ∧
                (probT.set s (scaled.getD s 0)).getD j 0 < 1 then
              1 - (probT.set s (scaled.getD s 0)).getD j 0
            else 0) =
            Finset.sum ((Finset.range n).erase s) (fun j =>
              if j ∉ (s :: small') ++ (l :: large') ∧ aliasT.getD j 0 = i ∧
                  probT.getD j 0 < 1 then
                1 - probT.getD j 0
              else 0) := by
          refine Finset.sum_congr rfl fun j hj => ?_
          have hjs : j ≠ s := (Finset.mem_erase.mp hj).1
          rw [hat2_ne j hjs, hpt2_ne j hjs]
          refine if_congr ?_ rfl rfl
          simp only [List.cons_append, List.mem_cons, List.mem_append]
          constructor
          · rintro ⟨h1, h2, h3⟩; exact ⟨by tauto, h2, h3⟩
          · rintro ⟨h1, h2, h3⟩; exact ⟨by tauto, h2, h3⟩
        have hsum_mid : Finset.sum (Finset.range n) (fun j =>
            if j ∉ small' ++ (l :: large') ∧ (aliasT.set s l).getD j 0 = i ∧
                (probT.set s (scaled.getD s 0)).getD j 0 < 1 then
              1 - (probT.set s (scaled.getD s 0)).getD j 0
            else 0) =
            Finset.sum (Finset.range n) (fun j =>
              if j ∉ (s :: small') ++ (l :: large') ∧ aliasT.getD j 0 = i ∧
                  probT.getD j 0 < 1 then
                1 - probT.getD j 0
              else 0) + (if l = i then 1 - scaled.getD s 0 else 0) := by
          rw [← Finset.add_sum_erase _ _ hs_in, herase]
          rw [← Finset.add_sum_erase (Finset.range n) (fun j =>
            if j ∉ (s :: small') ++ (l :: large') ∧ aliasT.getD j 0 = i ∧
                probT.getD j 0 < 1 then
              1 - probT.getD j 0
            else 0) hs_in]
          have hforig : (if s ∉ (s :: small') ++ (l :: large') ∧ aliasT.getD s 0 = i ∧
              probT.getD s 0 < 1 then 1 - probT.getD s 0 else 0) = 0 :=
            if_neg (fun hcase => hcase.1 (by simp))
          rw [hforig]
          simp only [hat2_s, hpt2_s]
          by_cases hli : l = i
          · rw [if_pos ⟨hs_notB, hli, hsV1⟩, if_pos hli]
            ring
          · rw [if_neg (fun hcase => hli hcase.2.1), if_neg hli]
            ring
        rw [hsum_mid]
        by_cases his : i = s
        · have hm1 : i ∉ small' ++ (l :: large') := by rw [his]; exact hs_notB
          have hm2 : i ∈ (s :: small') ++ (l :: large') := by rw [his]; simp
          have hm3 : l ≠ i := by rw [his]; exact fun h => hsl h.symm
          rw [if_neg hm1, if_pos hm2, if_neg hm3, his, hpt2_s]
          ring
        · by_cases hil : i = l
          · have hm1 : i ∈ small' ++ (l :: large') := by rw [hil]; simp
            have hm2 : i ∈ (s :: small') ++ (l :: large') := by rw [hil]; simp
            rw [if_pos hm1, if_pos hm2, if_pos hil.symm, hil, hsc2_l]
            ring
          · have hmem_iff : (i ∈ small' ++ (l :: large')) ↔
                (i ∈ (s :: small') ++ (l :: large')) := by
              simp only [List.cons_append, List.mem_cons, List.mem_append]
              constructor <;> intro h <;> tauto
            rw [if_neg (fun h : l = i => hil h.symm)]
            by_cases him : i ∈ small' ++ (l :: large')
            · rw [if_pos him, if_pos (hmem_iff.mp him), hsc2_ne i hil]
              ring
            · rw [if_neg him, if_neg (fun h => him (hmem_iff.mpr h)), hpt2_ne i his]
              ring

theorem getD_map_lt {α β : Type} (f : α → β) (l : List α) (i : ℕ) (h : i < l.length)
    (d : β) (d2 : α) : (l.map f).getD i d = f (l.getD i d2) := by
  rw [List.getD_eq_getElem _ _ (by simpa using h), List.getElem_map,
    List.getD_eq_getElem _ _ h]

theorem getD_replicate {α : Type} (n i : ℕ) (d : α) :
    (List.replicate n d).getD i d = d := by
  by_cases hi : i < n
  · rw [List.getD_eq_getElem _ _ (by simpa using hi), List.getElem_replicate]
  · exact List.getD_eq_default _ _ (by simpa using hi)

theorem list_sum_eq_range_sum (l : List ℚ) :
    l.sum = Finset.sum (Finset.range l.length) (fun i => l.getD i 0) := by
  induction l with
  | nil => simp
  | cons a t ih =>
      rw [List.sum_cons, List.length_cons, Finset.sum_range_succ', ih]
      simp
      ring

/-- The alias construction applied to a normalized non-negative weight
vector: table lengths, entry bounds, and the conserved expectation
identity, with the probability entry plus alias contributions of index i
equal to n times the probability of i. -/
theorem createAliasTables_spec (probs : List ℚ) (hnn : ∀ x ∈ probs, 0 ≤ x)
    (hsum1 : probs.sum = 1) (hn : 1 ≤ probs.length) :
    (createAliasTables probs).1.length = probs.length ∧
    (createAliasTables probs).2.length = probs.length ∧
    (∀ i < probs.length,
      0 ≤ (createAliasTables probs).1.getD i 0 ∧
      (createAliasTables probs).1.getD i 0 ≤ 1 ∧
      (createAliasTables probs).2.getD i 0 < probs.length) ∧
    (∀ i < probs.length,
      (createAliasTables probs).1.getD i 0 +
        Finset.sum (Finset.range probs.length) (fun j =>
          if (createAliasTables probs).2.getD j 0 = i ∧
              (createAliasTables probs).1.getD j 0 < 1 then
            1 - (createAliasTables probs).1.getD j 0
          else 0) = probs.getD i 0 * (probs.length : ℚ)) := by
  have hrun : createAliasTables probs =
      aliasLoop (scaledProbsOf probs) (List.replicate probs.length 0)
        (List.replicate probs.length 0) (smallInit probs) (largeInit probs) := rfl
  have hscaled_getD : ∀ i, i < probs.length →
      (scaledProbsOf probs).getD i 0 = probs.getD i 0 * (probs.length : ℚ) :=
    fun i hi => getD_map_lt _ _ _ hi _ 0
  have hperm : (smallInit probs ++ largeInit probs).Perm (List.range probs.length) := by
    rw [smallInit, largeInit]
    refine ((List.reverse_perm _).append (List.reverse_perm _)).trans ?_
    exact List.filter_append_perm
      (fun i => decide ((scaledProbsOf probs).getD i 0 < 1)) (List.range probs.length)
  have hpend_mem : ∀ i, (i ∈ smallInit probs ++ largeInit probs ↔ i < probs.length) := by
    intro i
    rw [hperm.mem_iff, List.mem_range]
  have hspec := aliasLoop_spec probs.length
    ((smallInit probs).length + (largeInit probs).length)
    (smallInit probs) (largeInit probs) (scaledProbsOf probs)
    (List.replicate probs.length 0) (List.replicate probs.length 0)
    (le_refl _)
    (List.length_map _ _)
    (List.length_replicate _ _)
    (List.length_replicate _ _)
    (hperm.nodup_iff.mpr (List.nodup_range _))
    (fun i hi => (hpend_mem i).mp hi)
    (by
      intro i hi
      rw [smallInit, List.mem_reverse, List.mem_filter] at hi
      exact of_decide_eq_true hi.2)
    (by
      intro i hi
      rw [largeInit, List.mem_reverse, List.mem_filter] at hi
      have h2 := hi.2
      refine not_lt.mp ?_
      simpa using h2)
    (by
      intro i hi
      have hilt := (hpend_mem i).mp hi
      rw [hscaled_getD i hilt]
      refine mul_nonneg ?_ (by positivity)
      have hg : probs.getD i 0 = probs[i] := List.getD_eq_getElem _ _ hilt
      rw [hg]
      exact hnn _ (List.getElem_mem _))
    (fun i hi hni => absurd ((hpend_mem i).mpr hi) hni)
    (by
      intro i _
      rw [getD_replicate]
      omega)
    (by
      rw [(hperm.map _).sum_eq, hperm.length_eq, List.length_range]
      rw [map_range_sum]
      rw [Finset.sum_congr rfl (fun i hi =>
        hscaled_getD i (Finset.mem_range.mp hi))]
      rw [← Finset.sum_mul, ← list_sum_eq_range_sum, hsum1, one_mul])
  rw [hrun]
  obtain ⟨c1, c2, c3, c4⟩ := hspec
  refine ⟨c1, c2, c3, ?_⟩
  intro i hi
  have hc := c4 i hi
  rw [if_pos ((hpend_mem i).mpr hi)] at hc
  have hzero : Finset.sum (Finset.range probs.length) (fun j =>
      if j ∉ smallInit probs ++ largeInit probs ∧
          (List.replicate probs.length (0 : ℕ)).getD j 0 = i ∧
          (List.replicate probs.length (0 : ℚ)).getD j 0 < 1 then
        1 - (List.replicate probs.length (0 : ℚ)).getD j 0
      else 0) = 0 :=
    Finset.sum_eq_zero (fun j hj =>
      if_neg (fun hcase => hcase.1 ((hpend_mem j).mpr (Finset.mem_range.mp hj))))
  rw [hzero, hscaled_getD i hi] at hc
  rw [hc, add_zero]

/-- C3: on a normalized non-negative weight vector of length at least
one, createAliasTables returns full-length tables in which every
probability entry lies in the closed unit interval and every alias entry
is a valid index below n, including the worklist leftovers, whose
probability entries are set to one. -/
theorem alias_tables_bounds (probs : List ℚ) (hnn : ∀ x ∈ probs, 0 ≤ x)
    (hsum1 : probs.sum = 1) (hn : 1 ≤ probs.length) :
    (createAliasTables probs).1.length = probs.length ∧
    (createAliasTables probs).2.length = probs.length ∧
    ∀ i < probs.length,
      0 ≤ (createAliasTables probs).1.getD i 0 ∧
      (createAliasTables probs).1.getD i 0 ≤ 1 ∧
      (createAliasTables probs).2.getD i 0 < probs.length :=
  ⟨(createAliasTables_spec probs hnn hsum1 hn).1,
   (createAliasTables_spec probs hnn hsum1 hn).2.1,
   (createAliasTables_spec probs hnn hsum1 hn).2.2.1⟩

/-- C1: for a normalized non-negative weight vector, the tables built by
createAliasTables reproduce the distribution exactly in expectation: for
every index i, one over n times the probability entry of i plus the sum
of one minus the probability entry over all buckets whose alias is i and
whose probability entry is below one equals the probability of i.  This
is the probability that one call of sample returns i when the bucket is
uniform on the indices and the coin flip uniform on the unit interval. -/
theorem alias_tables_expectation (probs : List ℚ) (hnn : ∀ x ∈ probs, 0 ≤ x)
    (hsum1 : probs.sum = 1) (hn : 1 ≤ probs.length) (i : ℕ) (hi : i < probs.length) :
    (1 / (probs.length : ℚ)) *
      ((createAliasTables probs).1.getD i 0 +
        Finset.sum (Finset.range probs.length) (fun j =>
          if (createAliasTables probs).2.getD j 0 = i ∧
              (createAliasTables probs).1.getD j 0 < 1 then
            1 - (createAliasTables probs).1.getD j 0
          else 0)) = probs.getD i 0 := by
  rw [(createAliasTables_spec probs hnn hsum1 hn).2.2.2 i hi]
  have hne : (probs.length : ℚ) ≠ 0 := Nat.cast_ne_zero.mpr (by omega)
  field_simp

/-- Witness for C3 on the repository default weight vector, already
normalized. -/
theorem alias_tables_bounds_witness :
    (createAliasTables probs1).1.length = probs1.length ∧
    (createAliasTables probs1).2.length = probs1.length ∧
    ∀ i < probs1.length,
      0 ≤ (createAliasTables probs1).1.getD i 0 ∧
      (createAliasTables probs1).1.getD i 0 ≤ 1 ∧
      (createAliasTables probs1).2.getD i 0 < probs1.length :=
  alias_tables_bounds probs1
    (by intro x hx; simp [probs1] at hx; rcases hx with rfl | rfl | rfl | rfl | rfl <;> norm_num)
    (by norm_num [probs1])
    (by simp [probs1])

/-- Witness for C1 on the repository default weight vector at index 0. -/
theorem alias_tables_expectation_witness :
    (1 / (probs1.length : ℚ)) *
      ((createAliasTables probs1).1.getD 0 0 +
        Finset.sum (Finset.range probs1.length) (fun j =>
          if (createAliasTables probs1).2.getD j 0 = 0 ∧
              (createAliasTables probs1).1.getD j 0 < 1 then
            1 - (createAliasTables probs1).1.getD j 0
          else 0)) = probs1.getD 0 0 :=
  alias_tables_expectation probs1
    (by intro x hx; simp [probs1] at hx; rcases hx with rfl | rfl | rfl | rfl | rfl <;> norm_num)
    (by norm_num [probs1])
    (by simp [probs1])
    0 (by simp [probs1])

end Visulyn
